import Mathlib

/-!
# mtr-packet: the privileged backend process (`packet/packet.c`)

A shallow embedding of `packet/packet.c`: the construction of the short-option
string, command-line parsing, the privilege drop and the event loop of `main`.

Everything the file calls but does not define (libc, libcap, getopt, and the
net-state / command-buffer modules declared by `wait.h`) is a field of `Env`:
a function over an abstract world `W`.  Calls are threaded through the world in
program order and recorded in a chronological list of `Event`s.  External calls
are taken to return to their caller; `exit` and a non-zero-status `error` are the
only calls that end the process.  The two `while` loops of `main` are unbounded,
so they are run with a fuel bound and report `out_of_fuel` when it is used up.
-/

namespace MtrPacket

/-! ## Platform constants -/

/-- Value of `CHAR_MAX` in `limits.h` where `char` is signed and 8 bits wide. -/
def CHAR_MAX : Int := 127

/-- Value of `EXIT_FAILURE` in `stdlib.h`. -/
def EXIT_FAILURE : Int := 1

/-- Value of `EPIPE` in `errno.h` on Linux. -/
def EPIPE : Int := 32

/-! ## Data model -/

/-- The two stdio streams that `main` and `usage` write to. -/
inductive FILE where
  | stdout
  | stderr
  deriving DecidableEq, Repr

/-- A `struct option` of `getopt.h`: `{name, has_arg, flag, val}`; `flag` is
`NULL` in every entry of the table and is left out. -/
structure LongOption where
  name : Option String
  has_arg : Int
  val : Int
  deriving DecidableEq, Repr

/-- The table `long_options` of `main` (lines 105-110), terminator included. -/
def long_options : List LongOption :=
  [ { name := some "help", has_arg := 0, val := ('h'.toNat : Int) },
    { name := some "bind-interface", has_arg := 1, val := ('b'.toNat : Int) },
    { name := none, has_arg := 0, val := 0 } ]

/-- The enum constant `num_options = sizeof(long_options) / sizeof(struct option)`. -/
def num_options : Nat := long_options.length

/-! ## The short-option string (lines 112-126) -/

/-- The value an `int` has after assignment to a `char` cell, as a byte. -/
def to_char (v : Int) : Nat := (v % 256).toNat

/-- The store `buf[p] = c` into a `char` array; `none` when `p` is outside it. -/
def store (buf : List Nat) (p : Nat) (c : Nat) : Option (List Nat) :=
  if p < buf.length then some (buf.set p c) else none

/-- One pass through the body of the `for` loop at lines 115-126 for the entry
`o = long_options[n]`, from write index `p` and buffer `buf`. -/
def short_options_step (o : LongOption) (st : Nat × List Nat) : Option (Nat × List Nat) :=
  if CHAR_MAX < o.val then
    some st
  else
    match store st.2 st.1 (to_char o.val) with
    | none => none
    | some buf1 =>
      if o.has_arg = 1 then
        match store buf1 (st.1 + 1) ':'.toNat with
        | none => none
        | some buf2 => some (st.1 + 2, buf2)
      else
        some (st.1 + 1, buf1)

/-- The `for (n = p = 0; n < num_options; n++)` loop over the entries of a table,
in order; `none` when some store falls outside the buffer. -/
def short_options_loop : List LongOption → Nat × List Nat → Option (Nat × List Nat)
  | [], st => some st
  | o :: os, st =>
    match short_options_step o st with
    | none => none
    | some st1 => short_options_loop os st1

/-- Lines 112-126 for an arbitrary table: the loop started at `p = 0` on the
buffer `char short_options[num_options * 2]` with indeterminate contents `buf`. -/
def build_short_options (table : List LongOption) (buf : List Nat) :
    Option (Nat × List Nat) :=
  short_options_loop table (0, buf)

/-- The C string that starts at `buf[0]`: the bytes before the first NUL, or
`none` when the array holds no NUL and a reader would run past its end. -/
def c_string : List Nat → Option (List Nat)
  | [] => none
  | c :: cs =>
    if c = 0 then some []
    else
      match c_string cs with
      | none => none
      | some s => some (c :: s)

/-- Lines 112-126 of `main` for its own table: the string handed to
`getopt_long`, given the indeterminate initial contents of the array. -/
def short_options (uninit : Nat → Nat) : Option (List Nat) :=
  match build_short_options long_options ((List.range (num_options * 2)).map uninit) with
  | none => none
  | some st => c_string st.2

/-! ## Events and the environment -/

/-- The calls `packet.c` makes to code it does not define, plus the return of
`drop_elevated_permissions`, as recorded in execution order. -/
inductive Event where
  | getopt_long (shortopts : List Nat) (ret : Int) (optarg : Option String)
  | fputs (s : String) (out : FILE)
  | exit (status : Int)
  | init_net_state_privileged (bind_interface : Option String)
  | setgid (gid : Nat) (ret : Int)
  | setuid (uid : Nat) (ret : Int)
  | cap_get_proc (cap : Option Nat)
  | cap_clear (cap : Nat) (ret : Int)
  | cap_set_proc (cap : Nat) (ret : Int)
  | drop_elevated_permissions_return (ret : Int)
  | error (status : Int) (errnum : Int) (msg : String)
  | init_net_state
  | init_command_buffer
  | fflush (out : FILE)
  | wait_for_activity
  | receive_replies
  | read_commands (ret : Int)
  | check_probe_timeouts
  | dispatch_buffer_commands
  deriving DecidableEq, Repr

/-- Everything `packet.c` uses without defining it, over a world `W` that holds
the process credentials, `errno`, `argv`, `optarg`, the stdio buffers, the
command buffer and the net state. -/
structure Env (W : Type) where
  /-- Indeterminate initial bytes of the automatic array `short_options`. -/
  uninit : Nat → Nat
  /-- Call `getopt_long(argc, argv, short_options, long_options, NULL)`. -/
  getopt_long : List Nat → List LongOption → W → Int × W
  /-- The global `optarg`; `none` is `NULL`. -/
  optarg : W → Option String
  /-- The global `errno`. -/
  errno : W → Int
  fputs : String → FILE → W → W
  fflush : FILE → W → W
  /-- What `error` prints before it exits or returns. -/
  error_print : Int → String → W → W
  getuid : W → Nat
  geteuid : W → Nat
  getgid : W → Nat
  getegid : W → Nat
  setgid : Nat → W → Int × W
  setuid : Nat → W → Int × W
  /-- Call `cap_get_proc()`; `none` is `NULL`. -/
  cap_get_proc : W → Option Nat × W
  cap_clear : Nat → W → Int × W
  cap_set_proc : Nat → W → Int × W
  init_net_state_privileged : Option String → W → W
  init_net_state : W → W
  init_command_buffer : W → W
  wait_for_activity : W → W
  receive_replies : W → W
  read_commands : W → Int × W
  check_probe_timeouts : W → W
  dispatch_buffer_commands : W → W
  /-- The field `net_state.outstanding_probe_count`. -/
  outstanding_probe_count : W → Int

variable {W : Type}

/-! ## `drop_elevated_permissions` (lines 45-81) -/

/-- Result of a call that returns an `int`: the value, the world after the call
and the events of the call. -/
structure CallResult (W : Type) where
  ret : Int
  world : W
  events : List Event

/-- Lines 67-78, compiled only with `HAVE_LIBCAP`: `0` when the capability set
was fetched, cleared and installed, `-1` at the first call that fails. -/
def drop_capabilities (env : Env W) (w : W) : CallResult W :=
  let g := env.cap_get_proc w
  match g.1 with
  | none => ⟨-1, g.2, [Event.cap_get_proc none]⟩
  | some cap =>
    let c := env.cap_clear cap g.2
    if c.1 ≠ 0 then
      ⟨-1, c.2, [Event.cap_get_proc (some cap), Event.cap_clear cap c.1]⟩
    else
      let s := env.cap_set_proc cap c.2
      if s.1 ≠ 0 then
        ⟨-1, s.2, [Event.cap_get_proc (some cap), Event.cap_clear cap c.1,
          Event.cap_set_proc cap s.1]⟩
      else
        ⟨0, s.2, [Event.cap_get_proc (some cap), Event.cap_clear cap c.1,
          Event.cap_set_proc cap s.1]⟩

/-- The function `drop_elevated_permissions` (lines 45-81). -/
def drop_elevated_permissions (env : Env W) (HAVE_LIBCAP : Bool) (w : W) : CallResult W :=
  let g := env.setgid (env.getgid w) w
  if g.1 ≠ 0 then
    ⟨-1, g.2, [Event.setgid (env.getgid w) g.1]⟩
  else
    let u := env.setuid (env.getuid g.2) g.2
    if u.1 ≠ 0 then
      ⟨-1, u.2, [Event.setgid (env.getgid w) g.1, Event.setuid (env.getuid g.2) u.1]⟩
    else if env.geteuid u.2 ≠ env.getuid u.2 ∨ env.getegid u.2 ≠ env.getgid u.2 then
      ⟨-1, u.2, [Event.setgid (env.getgid w) g.1, Event.setuid (env.getuid g.2) u.1]⟩
    else if HAVE_LIBCAP then
      let c := drop_capabilities env u.2
      ⟨c.ret, c.world,
        [Event.setgid (env.getgid w) g.1, Event.setuid (env.getuid g.2) u.1] ++ c.events⟩
    else
      ⟨0, u.2, [Event.setgid (env.getgid w) g.1, Event.setuid (env.getuid g.2) u.1]⟩

/-! ## `usage` and `error` -/

/-- The lines `usage` writes (lines 85-91), in order. -/
def usage_text : List String :=
  [ "\nUsage:\n",
    " mtr-packet [options]\n",
    "\n",
    " -b, --bind-interface <IFNAME>  bind to a specific interface\n",
    " -h, --help                     display this help and exit\n",
    "\n",
    "See the 'man 8 mtr' for details.\n" ]

/-- The function `usage` (lines 83-93): seven `fputs` to `out`, then `exit(0)`.
It does not return; the result is the exit status with the world and events. -/
def usage (env : Env W) (out : FILE) (w : W) : CallResult W :=
  ⟨0, usage_text.foldl (fun acc s => env.fputs s out acc) w,
    usage_text.map (fun s => Event.fputs s out) ++ [Event.exit 0]⟩

/-- Modelled from the spec: the function `error(status, errnum, format)` of
`error.h` (glibc, or the repository's `portability/error.h`), which is not in
`packet.c`.  It prints a descriptive message and, when `status` is non-zero,
terminates the process with that status; with status 0 it returns.  The result is
`some status` when the process ends here. -/
def error (env : Env W) (status : Int) (errnum : Int) (msg : String) (w : W) :
    Option Int × W × List Event :=
  (if status ≠ 0 then some status else none, env.error_print errnum msg w,
    [Event.error status errnum msg])

/-! ## Option parsing (lines 128-144) -/

/-- How the option loop of `main` ends. -/
inductive ParseResult (W : Type) where
  | done (bind_interface : Option String) (w : W)
  | exited (status : Int) (w : W)
  | out_of_fuel

/-- The `while (1)` loop at lines 129-144, entered with the current value of
`bind_interface`; `so` is the string read from `short_options`. -/
def parse_options (env : Env W) (so : List Nat) :
    Nat → Option String → W → ParseResult W × List Event
  | 0, _, _ => (ParseResult.out_of_fuel, [])
  | fuel + 1, bind_interface, w =>
    let r := env.getopt_long so long_options w
    let ev := Event.getopt_long so r.1 (env.optarg r.2)
    if r.1 = -1 then
      (ParseResult.done bind_interface r.2, [ev])
    else if r.1 = ('b'.toNat : Int) then
      let rest := parse_options env so fuel (env.optarg r.2) r.2
      (rest.1, ev :: rest.2)
    else if r.1 = ('h'.toNat : Int) then
      let u := usage env FILE.stdout r.2
      (ParseResult.exited u.ret u.world, ev :: u.events)
    else
      let u := usage env FILE.stderr r.2
      (ParseResult.exited u.ret u.world, ev :: u.events)

/-! ## The event loop (lines 159-201) -/

/-- The variables that live across iterations of the event loop. -/
structure LoopState (W : Type) where
  command_pipe_open : Bool
  world : W

/-- Lines 176-182: the guarded read of the command pipe.  Gives the new value of
`command_pipe_open`, the world, and the events. -/
def read_step (env : Env W) (command_pipe_open : Bool) (w : W) : Bool × W × List Event :=
  if command_pipe_open then
    let r := env.read_commands w
    if r.1 ≠ 0 then
      if env.errno r.2 = EPIPE then
        (false, r.2, [Event.read_commands r.1])
      else
        (command_pipe_open, r.2, [Event.read_commands r.1])
    else
      (command_pipe_open, r.2, [Event.read_commands r.1])
  else
    (command_pipe_open, w, [])

/-- Lines 166-190: one iteration of the event loop up to the exit test. -/
def loop_body (env : Env W) (s : LoopState W) : LoopState W × List Event :=
  let w1 := env.fflush FILE.stdout s.world
  let w2 := env.wait_for_activity w1
  let w3 := env.receive_replies w2
  let rd := read_step env s.command_pipe_open w3
  let w4 := env.check_probe_timeouts rd.2.1
  let w5 := env.dispatch_buffer_commands w4
  (⟨rd.1, w5⟩,
    [Event.fflush FILE.stdout, Event.wait_for_activity, Event.receive_replies] ++ rd.2.2 ++
      [Event.check_probe_timeouts, Event.dispatch_buffer_commands])

/-- Lines 196-200: whether the `break` is taken at the end of an iteration. -/
def loop_break (env : Env W) (s : LoopState W) : Bool :=
  if !s.command_pipe_open then
    if env.outstanding_probe_count s.world = 0 then true else false
  else
    false

/-- The `while (true)` loop at lines 165-201: `some` final state when the
`break` is reached within `fuel` iterations. -/
def event_loop (env : Env W) : Nat → LoopState W → Option (LoopState W) × List Event
  | 0, _ => (none, [])
  | fuel + 1, s =>
    let r := loop_body env s
    if loop_break env r.1 then
      (some r.1, r.2)
    else
      let rest := event_loop env fuel r.1
      (rest.1, r.2 ++ rest.2)

/-! ## `main` (lines 95-204) -/

/-- How a run of `main` ends. -/
inductive Outcome where
  | exited (status : Int)
  | out_of_fuel
  | out_of_bounds
  deriving DecidableEq, Repr

/-- Lines 155-203: everything `main` does once the privilege drop is behind it. -/
def main_unprivileged (env : Env W) (fuel : Nat) (w : W) : Outcome × List Event :=
  let w1 := env.init_net_state w
  let w2 := env.init_command_buffer w1
  let l := event_loop env fuel ⟨true, w2⟩
  match l.1 with
  | some _ => (Outcome.exited 0, [Event.init_net_state, Event.init_command_buffer] ++ l.2)
  | none => (Outcome.out_of_fuel, [Event.init_net_state, Event.init_command_buffer] ++ l.2)

/-- Lines 151-203: `main` from the end of option parsing on. -/
def main_startup (env : Env W) (HAVE_LIBCAP : Bool) (fuel : Nat)
    (bind_interface : Option String) (w : W) : Outcome × List Event :=
  let w1 := env.init_net_state_privileged bind_interface w
  let d := drop_elevated_permissions env HAVE_LIBCAP w1
  let head := [Event.init_net_state_privileged bind_interface] ++ d.events ++
    [Event.drop_elevated_permissions_return d.ret]
  if d.ret ≠ 0 then
    let e := error env EXIT_FAILURE (env.errno d.world) "Unable to drop elevated permissions"
      d.world
    match e.1 with
    | some status => (Outcome.exited status, head ++ e.2.2)
    | none =>
      let r := main_unprivileged env fuel e.2.1
      (r.1, head ++ e.2.2 ++ r.2)
  else
    let r := main_unprivileged env fuel d.world
    (r.1, head ++ r.2)

/-- The function `main` (lines 95-204).  `w` is the world at entry and `fuel`
bounds the iterations of each of its two loops. -/
def main (env : Env W) (HAVE_LIBCAP : Bool) (fuel : Nat) (w : W) : Outcome × List Event :=
  match short_options env.uninit with
  | none => (Outcome.out_of_bounds, [])
  | some so =>
    let p := parse_options env so fuel none w
    match p.1 with
    | ParseResult.done bind_interface w1 =>
      let r := main_startup env HAVE_LIBCAP fuel bind_interface w1
      (r.1, p.2 ++ r.2)
    | ParseResult.exited status _ => (Outcome.exited status, p.2)
    | ParseResult.out_of_fuel => (Outcome.out_of_fuel, p.2)

/-! ## Vocabulary for stating properties of executions -/

/-- The string `"hb:"` as bytes. -/
def hb : List Nat := ['h'.toNat, 'b'.toNat, ':'.toNat]

/-- State after `n` iterations of the loop body, the exit test left aside. -/
def iterate_body (env : Env W) : Nat → LoopState W → LoopState W
  | 0, s => s
  | n + 1, s => iterate_body env n (loop_body env s).1

/-- Events of the first `n` iterations of the loop body from `s`, in order. -/
def iterate_events (env : Env W) : Nat → LoopState W → List Event
  | 0, _ => []
  | n + 1, s => (loop_body env s).2 ++ iterate_events env n (loop_body env s).1

/-- The loop state in which `main` enters its event loop after a successful
privilege drop that left the world `w`. -/
def loop_entry (env : Env W) (w : W) : LoopState W :=
  ⟨true, env.init_command_buffer (env.init_net_state w)⟩

/-- The calls `drop_elevated_permissions` makes when every step succeeds, in
order, from the world `w`: `setgid`, `setuid`, and with `HAVE_LIBCAP` the three
libcap calls (the last two only when `cap_get_proc` gave a handle). -/
def drop_sequence (env : Env W) (HAVE_LIBCAP : Bool) (w : W) : List Event :=
  let g := env.setgid (env.getgid w) w
  let u := env.setuid (env.getuid g.2) g.2
  let c := env.cap_get_proc u.2
  [Event.setgid (env.getgid w) g.1, Event.setuid (env.getuid g.2) u.1] ++
    (if HAVE_LIBCAP then
      Event.cap_get_proc c.1 ::
        (match c.1 with
         | none => []
         | some cap =>
           [Event.cap_clear cap (env.cap_clear cap c.2).1,
            Event.cap_set_proc cap (env.cap_set_proc cap (env.cap_clear cap c.2).2).1])
     else [])

/-- Effective and real user and group IDs agree in the world `w`. -/
def ids_equal (env : Env W) (w : W) : Prop :=
  env.geteuid w = env.getuid w ∧ env.getegid w = env.getgid w

/-- With `HAVE_LIBCAP`: from the world `w`, `cap_get_proc`, `cap_clear` and
`cap_set_proc` all succeed. -/
def caps_cleared (env : Env W) (w : W) : Prop :=
  ∃ cap, (env.cap_get_proc w).1 = some cap ∧
    (env.cap_clear cap (env.cap_get_proc w).2).1 = 0 ∧
    (env.cap_set_proc cap (env.cap_clear cap (env.cap_get_proc w).2).2).1 = 0

/-- The four IDs read the same in the worlds `a` and `b`. -/
def same_ids (env : Env W) (a b : W) : Prop :=
  env.getuid a = env.getuid b ∧ env.geteuid a = env.geteuid b ∧
    env.getgid a = env.getgid b ∧ env.getegid a = env.getegid b

/-- The libcap calls leave the user and group IDs of the process alone. -/
def libcap_keeps_ids (env : Env W) : Prop :=
  (∀ x, same_ids env (env.cap_get_proc x).2 x) ∧
  (∀ cap x, same_ids env (env.cap_clear cap x).2 x) ∧
  (∀ cap x, same_ids env (env.cap_set_proc cap x).2 x)

/-- The events of an iteration that starts with the command pipe closed. -/
def draining_events : List Event :=
  [Event.fflush FILE.stdout, Event.wait_for_activity, Event.receive_replies,
    Event.check_probe_timeouts, Event.dispatch_buffer_commands]

/-- The condition tested at the end of an iteration: the command pipe is closed
and no probe is outstanding. -/
def drained (env : Env W) (s : LoopState W) : Prop :=
  s.command_pipe_open = false ∧ env.outstanding_probe_count s.world = 0

/-- The argument of the last `getopt_long` call in a trace that returned `'b'`,
or `start` when there is none. -/
def last_bind (start : Option String) (tr : List Event) : Option String :=
  tr.foldl (fun acc e =>
    match e with
    | Event.getopt_long _ ret optarg => if ret = ('b'.toNat : Int) then optarg else acc
    | _ => acc) start

/-- Calls to `getopt_long`. -/
def Event.is_getopt : Event → Bool
  | Event.getopt_long _ _ _ => true
  | _ => false

/-- Calls to `init_net_state_privileged`. -/
def Event.is_privileged_init : Event → Bool
  | Event.init_net_state_privileged _ => true
  | _ => false

/-- The calls made inside `drop_elevated_permissions`. -/
def Event.is_drop_step : Event → Bool
  | Event.setgid _ _ => true
  | Event.setuid _ _ => true
  | Event.cap_get_proc _ => true
  | Event.cap_clear _ _ => true
  | Event.cap_set_proc _ _ => true
  | _ => false

/-- Returns of `drop_elevated_permissions`. -/
def Event.is_drop_return : Event → Bool
  | Event.drop_elevated_permissions_return _ => true
  | _ => false

/-- Calls into the net state and the command buffer other than
`init_net_state_privileged`: `init_net_state`, `init_command_buffer`,
`wait_for_activity`, `receive_replies`, `read_commands`, `check_probe_timeouts`
and `dispatch_buffer_commands`. -/
def Event.is_unprivileged_call : Event → Bool
  | Event.init_net_state => true
  | Event.init_command_buffer => true
  | Event.wait_for_activity => true
  | Event.receive_replies => true
  | Event.read_commands _ => true
  | Event.check_probe_timeouts => true
  | Event.dispatch_buffer_commands => true
  | _ => false

/-- The events of one iteration of the event loop. -/
def Event.is_loop_call : Event → Bool
  | Event.fflush _ => true
  | Event.wait_for_activity => true
  | Event.receive_replies => true
  | Event.read_commands _ => true
  | Event.check_probe_timeouts => true
  | Event.dispatch_buffer_commands => true
  | _ => false

/-- The events of `usage`: `fputs` and `exit`. -/
def Event.is_usage_call : Event → Bool
  | Event.fputs _ _ => true
  | Event.exit _ => true
  | _ => false

/-- The events of `usage(out)`. -/
def usage_events (out : FILE) : List Event :=
  usage_text.map (fun s => Event.fputs s out) ++ [Event.exit 0]

/-! ## A simulated host

A small deterministic world on which the program can be run: `getopt_long`
returns the queued results and then `-1`; `setgid`/`setuid` succeed when
permitted; `read_commands` returns the queued results and then reports a closed
pipe; each command read successfully becomes a probe at the next dispatch and is
answered two `receive_replies` later. -/

structure Host where
  getopt_queue : List (Int × Option String)
  optarg : Option String
  errno : Int
  ruid : Nat
  euid : Nat
  rgid : Nat
  egid : Nat
  may_setid : Bool
  read_queue : List (Int × Int)
  pending : Int
  outstanding : Int
  deriving DecidableEq, Repr

def host_getopt_long (h : Host) : Int × Host :=
  match h.getopt_queue with
  | [] => (-1, { h with optarg := none })
  | (r, oa) :: rest => (r, { h with getopt_queue := rest, optarg := oa })

def host_setgid (gid : Nat) (h : Host) : Int × Host :=
  if h.may_setid then (0, { h with rgid := gid, egid := gid }) else (-1, { h with errno := 1 })

def host_setuid (uid : Nat) (h : Host) : Int × Host :=
  if h.may_setid then (0, { h with ruid := uid, euid := uid }) else (-1, { h with errno := 1 })

def host_read_commands (h : Host) : Int × Host :=
  match h.read_queue with
  | [] => (-1, { h with errno := EPIPE })
  | (r, e) :: rest =>
    (r, { h with read_queue := rest, errno := e,
                 pending := if r = 0 then h.pending + 1 else h.pending })

def host_receive_replies (h : Host) : Host :=
  if 0 < h.outstanding then { h with outstanding := h.outstanding - 1 } else h

def host_dispatch (h : Host) : Host :=
  { h with outstanding := h.outstanding + 2 * h.pending, pending := 0 }

def host_env : Env Host where
  uninit := fun _ => 255
  getopt_long := fun _ _ h => host_getopt_long h
  optarg := fun h => h.optarg
  errno := fun h => h.errno
  fputs := fun _ _ h => h
  fflush := fun _ h => h
  error_print := fun _ _ h => h
  getuid := fun h => h.ruid
  geteuid := fun h => h.euid
  getgid := fun h => h.rgid
  getegid := fun h => h.egid
  setgid := host_setgid
  setuid := host_setuid
  cap_get_proc := fun h => (some 1, h)
  cap_clear := fun _ h => (0, h)
  cap_set_proc := fun _ h => (0, h)
  init_net_state_privileged := fun _ h => h
  init_net_state := fun h => h
  init_command_buffer := fun h => h
  wait_for_activity := fun h => h
  receive_replies := host_receive_replies
  read_commands := host_read_commands
  check_probe_timeouts := fun h => h
  dispatch_buffer_commands := host_dispatch
  outstanding_probe_count := fun h => h.outstanding

/-- A set-uid-root start: real IDs 1000, effective IDs 0, with the given queued
`getopt_long` and `read_commands` results. -/
def host_start (opts : List (Int × Option String)) (reads : List (Int × Int))
    (may_setid : Bool) : Host :=
  { getopt_queue := opts, optarg := none, errno := 0, ruid := 1000, euid := 0,
    rgid := 1000, egid := 0, may_setid := may_setid, read_queue := reads,
    pending := 0, outstanding := 0 }

/-! ## Lemmas on the short-option string -/

theorem store_length {buf buf1 : List Nat} {p c : Nat} (h : store buf p c = some buf1) :
    buf1.length = buf.length := by
  unfold store at h
  split at h
  · cases h; simp
  · cases h

theorem store_some (buf : List Nat) (p c : Nat) (h : p < buf.length) :
    store buf p c = some (buf.set p c) := by
  simp [store, h]

theorem short_options_step_bound (o : LongOption) (p : Nat) (buf : List Nat)
    (h : p + 2 ≤ buf.length) :
    ∃ p1 buf1, short_options_step o (p, buf) = some (p1, buf1) ∧ p1 ≤ p + 2 ∧
      buf1.length = buf.length := by
  unfold short_options_step
  by_cases hc : CHAR_MAX < o.val
  · exact ⟨p, buf, by simp [hc], by omega, rfl⟩
  · by_cases ha : o.has_arg = 1
    · refine ⟨p + 2, (buf.set p (to_char o.val)).set (p + 1) ':'.toNat, ?_, le_refl _, by simp⟩
      have h1 : p < buf.length := by omega
      have h2 : p + 1 < (buf.set p (to_char o.val)).length := by simp; omega
      simp [hc, ha, store_some _ _ _ h1, store_some _ _ _ h2]
    · refine ⟨p + 1, buf.set p (to_char o.val), ?_, by omega, by simp⟩
      have h1 : p < buf.length := by omega
      simp [hc, ha, store_some _ _ _ h1]

theorem short_options_loop_bound (os : List LongOption) :
    ∀ (p : Nat) (buf : List Nat), p + 2 * os.length ≤ buf.length →
      ∃ p1 buf1, short_options_loop os (p, buf) = some (p1, buf1) ∧
        p1 ≤ p + 2 * os.length ∧ buf1.length = buf.length := by
  induction os with
  | nil => intro p buf _; exact ⟨p, buf, rfl, by simp, rfl⟩
  | cons o os ih =>
    intro p buf h
    simp only [List.length_cons] at h
    obtain ⟨p1, buf1, hs, hp1, hl1⟩ := short_options_step_bound o p buf (by omega)
    obtain ⟨p2, buf2, hr, hp2, hl2⟩ := ih p1 buf1 (by omega)
    refine ⟨p2, buf2, ?_, ?_, by omega⟩
    · simp [short_options_loop, hs, hr]
    · simp only [List.length_cons]; omega

theorem build_short_options_actual (buf : List Nat) (h : buf.length = num_options * 2) :
    build_short_options long_options buf
      = some (4, ['h'.toNat, 'b'.toNat, ':'.toNat, 0] ++ buf.drop 4) := by
  match buf, h with
  | [a, b, c, d, e, f], _ => rfl

theorem short_options_eq (uninit : Nat → Nat) :
    short_options uninit = some ['h'.toNat, 'b'.toNat, ':'.toNat] := by
  unfold short_options
  rw [build_short_options_actual _ (by simp)]
  rfl

/-! ## Lemmas on the event loop -/

theorem loop_break_iff (env : Env W) (s : LoopState W) :
    loop_break env s = true ↔ drained env s := by
  unfold loop_break drained
  cases s.command_pipe_open <;> simp

theorem iterate_body_succ (env : Env W) (n : Nat) (s : LoopState W) :
    iterate_body env (n + 1) s = (loop_body env (iterate_body env n s)).1 := by
  induction n generalizing s with
  | zero => rfl
  | succ n ih =>
    show iterate_body env (n + 1) (loop_body env s).1 = _
    rw [ih]
    rfl

theorem iterate_body_add (env : Env W) (m n : Nat) (s : LoopState W) :
    iterate_body env (m + n) s = iterate_body env n (iterate_body env m s) := by
  induction m generalizing s with
  | zero => simp [iterate_body]
  | succ m ih =>
    have h : m + 1 + n = (m + n) + 1 := by omega
    rw [h]
    show iterate_body env (m + n) (loop_body env s).1 = _
    rw [ih]
    rfl

theorem iterate_events_succ (env : Env W) (n : Nat) (s : LoopState W) :
    iterate_events env (n + 1) s
      = iterate_events env n s ++ (loop_body env (iterate_body env n s)).2 := by
  induction n generalizing s with
  | zero => simp [iterate_events, iterate_body]
  | succ n ih =>
    show (loop_body env s).2 ++ iterate_events env (n + 1) (loop_body env s).1 = _
    rw [ih]
    simp [iterate_events, iterate_body]

/-- The two ways a bounded run of the event loop can end: the `break` is taken at
the end of iteration `k + 1`, the first whose final state is drained, or the
fuel runs out with no drained state seen. -/
theorem event_loop_cases (env : Env W) (fuel : Nat) (s : LoopState W) :
    (∃ k, k < fuel ∧
        event_loop env fuel s = (some (iterate_body env (k + 1) s), iterate_events env (k + 1) s) ∧
        drained env (iterate_body env (k + 1) s) ∧
        ∀ j, j < k → ¬ drained env (iterate_body env (j + 1) s)) ∨
    (event_loop env fuel s = (none, iterate_events env fuel s) ∧
        ∀ j, j < fuel → ¬ drained env (iterate_body env (j + 1) s)) := by
  induction fuel generalizing s with
  | zero => right; exact ⟨rfl, fun j hj => absurd hj (Nat.not_lt_zero j)⟩
  | succ fuel ih =>
    by_cases hb : loop_break env (loop_body env s).1 = true
    · left
      refine ⟨0, Nat.succ_pos _, ?_, (loop_break_iff env _).1 hb,
        fun j hj => absurd hj (Nat.not_lt_zero j)⟩
      simp [event_loop, hb, iterate_body, iterate_events]
    · have hnd : ¬ drained env (loop_body env s).1 := fun h => hb ((loop_break_iff env _).2 h)
      rcases ih (loop_body env s).1 with ⟨k, hk, he, hd, hj⟩ | ⟨he, hj⟩
      · left
        refine ⟨k + 1, by omega, ?_, hd, ?_⟩
        · simp [event_loop, hb, he, iterate_body, iterate_events]
        · intro j hjk
          cases j with
          | zero => exact hnd
          | succ j => exact hj j (by omega)
      · right
        refine ⟨?_, ?_⟩
        · simp [event_loop, hb, he, iterate_events]
        · intro j hjk
          cases j with
          | zero => exact hnd
          | succ j => exact hj j (by omega)

theorem event_loop_mono (env : Env W) (fuel : Nat) (s sf : LoopState W)
    (h : (event_loop env fuel s).1 = some sf) (fuel2 : Nat) (hf : fuel ≤ fuel2) :
    event_loop env fuel2 s = event_loop env fuel s := by
  induction fuel generalizing s fuel2 with
  | zero => simp [event_loop] at h
  | succ fuel ih =>
    obtain ⟨m, rfl⟩ : ∃ m, fuel2 = m + 1 := ⟨fuel2 - 1, by omega⟩
    by_cases hb : loop_break env (loop_body env s).1 = true
    · simp [event_loop, hb]
    · simp only [event_loop, hb] at h ⊢
      simp only [Bool.false_eq_true, if_false] at h ⊢
      rw [ih (loop_body env s).1 h m (by omega)]

/-! ## Lemmas on option parsing -/

theorem last_bind_cons_b (start : Option String) (so : List Nat) (oa : Option String)
    (tr : List Event) :
    last_bind start (Event.getopt_long so 98 oa :: tr) = last_bind oa tr := by
  simp [last_bind]

theorem last_bind_append_other (start : Option String) (tr : List Event) (so : List Nat)
    (ret : Int) (oa : Option String) (h : ret ≠ 98) :
    last_bind start (tr ++ [Event.getopt_long so ret oa]) = last_bind start tr := by
  simp [last_bind, h]

/-- One turn of the option loop, with the character constants evaluated. -/
theorem parse_options_succ (env : Env W) (so : List Nat) (fuel : Nat)
    (bind : Option String) (w : W) :
    parse_options env so (fuel + 1) bind w =
      if (env.getopt_long so long_options w).1 = -1 then
        (ParseResult.done bind (env.getopt_long so long_options w).2,
          [Event.getopt_long so (env.getopt_long so long_options w).1
            (env.optarg (env.getopt_long so long_options w).2)])
      else if (env.getopt_long so long_options w).1 = 98 then
        ((parse_options env so fuel (env.optarg (env.getopt_long so long_options w).2)
            (env.getopt_long so long_options w).2).1,
          Event.getopt_long so (env.getopt_long so long_options w).1
              (env.optarg (env.getopt_long so long_options w).2) ::
            (parse_options env so fuel (env.optarg (env.getopt_long so long_options w).2)
              (env.getopt_long so long_options w).2).2)
      else if (env.getopt_long so long_options w).1 = 104 then
        (ParseResult.exited 0 (usage env FILE.stdout (env.getopt_long so long_options w).2).world,
          Event.getopt_long so (env.getopt_long so long_options w).1
              (env.optarg (env.getopt_long so long_options w).2) :: usage_events FILE.stdout)
      else
        (ParseResult.exited 0 (usage env FILE.stderr (env.getopt_long so long_options w).2).world,
          Event.getopt_long so (env.getopt_long so long_options w).1
              (env.optarg (env.getopt_long so long_options w).2) :: usage_events FILE.stderr) := by
  rfl

/-- The four ways a bounded run of the option loop can end.  In each, `pre` is
the list of `getopt_long` calls that returned `'b'`. -/
theorem parse_options_cases (env : Env W) (so : List Nat) (fuel : Nat)
    (bind : Option String) (w : W) :
    ∃ pre : List Event, (∀ e ∈ pre, ∃ oa, e = Event.getopt_long so 98 oa) ∧
      pre.length ≤ fuel ∧
      (parse_options env so fuel bind w = (ParseResult.out_of_fuel, pre) ∨
       (∃ oa w1, parse_options env so fuel bind w
          = (ParseResult.done (last_bind bind pre) w1, pre ++ [Event.getopt_long so (-1) oa])) ∨
       (∃ oa w1, parse_options env so fuel bind w
          = (ParseResult.exited 0 w1,
              pre ++ [Event.getopt_long so 104 oa] ++ usage_events FILE.stdout)) ∨
       (∃ ret oa w1, ret ≠ -1 ∧ ret ≠ 98 ∧ ret ≠ 104 ∧
          parse_options env so fuel bind w
            = (ParseResult.exited 0 w1,
                pre ++ [Event.getopt_long so ret oa] ++ usage_events FILE.stderr))) := by
  induction fuel generalizing bind w with
  | zero => exact ⟨[], by simp, le_refl _, Or.inl rfl⟩
  | succ fuel ih =>
    rw [parse_options_succ]
    generalize env.getopt_long so long_options w = r
    by_cases h1 : r.1 = -1
    · refine ⟨[], by simp, Nat.zero_le _, Or.inr (Or.inl ⟨env.optarg r.2, r.2, ?_⟩)⟩
      simp [h1, last_bind]
    · by_cases h2 : r.1 = 98
      · obtain ⟨pre, hpre, hlen, hc⟩ := ih (env.optarg r.2) r.2
        refine ⟨Event.getopt_long so 98 (env.optarg r.2) :: pre, ?_, ?_, ?_⟩
        · intro e he
          rcases List.mem_cons.1 he with rfl | he
          · exact ⟨_, rfl⟩
          · exact hpre e he
        · simp only [List.length_cons]; omega
        · rw [last_bind_cons_b]
          rcases hc with hc | ⟨oa, w1, hc⟩ | ⟨oa, w1, hc⟩ | ⟨ret, oa, w1, hr1, hr2, hr3, hc⟩
          · left; simp [h2, hc]
          · right; left; exact ⟨oa, w1, by simp [h2, hc]⟩
          · right; right; left; exact ⟨oa, w1, by simp [h2, hc]⟩
          · right; right; right; exact ⟨ret, oa, w1, hr1, hr2, hr3, by simp [h2, hc]⟩
      · by_cases h3 : r.1 = 104
        · refine ⟨[], by simp, Nat.zero_le _, Or.inr (Or.inr (Or.inl ⟨env.optarg r.2,
            (usage env FILE.stdout r.2).world, ?_⟩))⟩
          simp [h3]
        · refine ⟨[], by simp, Nat.zero_le _,
            Or.inr (Or.inr (Or.inr ⟨r.1, env.optarg r.2, (usage env FILE.stderr r.2).world,
              h1, h2, h3, ?_⟩))⟩
          simp [h1, h2, h3]

theorem parse_options_mono (env : Env W) (so : List Nat) (fuel : Nat)
    (bind : Option String) (w : W)
    (h : (parse_options env so fuel bind w).1 ≠ ParseResult.out_of_fuel)
    (fuel2 : Nat) (hf : fuel ≤ fuel2) :
    parse_options env so fuel2 bind w = parse_options env so fuel bind w := by
  induction fuel generalizing bind w fuel2 with
  | zero => simp [parse_options] at h
  | succ fuel ih =>
    obtain ⟨m, rfl⟩ : ∃ m, fuel2 = m + 1 := ⟨fuel2 - 1, by omega⟩
    rw [parse_options_succ] at h ⊢
    rw [parse_options_succ]
    by_cases h1 : (env.getopt_long so long_options w).1 = -1
    · simp [h1]
    · by_cases h2 : (env.getopt_long so long_options w).1 = 98
      · simp only [h1, h2, if_true, if_false] at h ⊢
        simp only [show ¬ ((98 : Int) = -1) by decide, if_false] at h ⊢
        rw [ih _ _ h m (by omega)]
      · simp only [h1, h2, if_false]

/-! ## Lemmas on the privilege drop and on `main` -/

theorem drop_capabilities_ret (env : Env W) (w : W) :
    (drop_capabilities env w).ret = 0 ∨ (drop_capabilities env w).ret = -1 := by
  unfold drop_capabilities
  rcases env.cap_get_proc w with ⟨_ | cap, w1⟩
  · simp
  · by_cases h1 : (env.cap_clear cap w1).1 = 0
    · by_cases h2 : (env.cap_set_proc cap (env.cap_clear cap w1).2).1 = 0 <;> simp [h1, h2]
    · simp [h1]

theorem drop_capabilities_events (env : Env W) (w : W) :
    ∀ e ∈ (drop_capabilities env w).events, e.is_drop_step = true := by
  unfold drop_capabilities
  rcases env.cap_get_proc w with ⟨_ | cap, w1⟩
  · simp [Event.is_drop_step]
  · by_cases h1 : (env.cap_clear cap w1).1 = 0
    · by_cases h2 : (env.cap_set_proc cap (env.cap_clear cap w1).2).1 = 0 <;>
        simp [h1, h2, Event.is_drop_step]
    · simp [h1, Event.is_drop_step]

theorem drop_elevated_permissions_ret (env : Env W) (hl : Bool) (w : W) :
    (drop_elevated_permissions env hl w).ret = 0 ∨
      (drop_elevated_permissions env hl w).ret = -1 := by
  unfold drop_elevated_permissions
  by_cases h1 : (env.setgid (env.getgid w) w).1 = 0
  · by_cases h2 : (env.setuid (env.getuid (env.setgid (env.getgid w) w).2)
        (env.setgid (env.getgid w) w).2).1 = 0
    · simp only [h1, h2, ne_eq, not_true_eq_false, if_false]
      split
      · simp
      · cases hl
        · simp
        · simpa using drop_capabilities_ret env _
    · simp [h1, h2]
  · simp [h1]

theorem drop_elevated_permissions_events (env : Env W) (hl : Bool) (w : W) :
    ∀ e ∈ (drop_elevated_permissions env hl w).events, e.is_drop_step = true := by
  unfold drop_elevated_permissions
  by_cases h1 : (env.setgid (env.getgid w) w).1 = 0
  · by_cases h2 : (env.setuid (env.getuid (env.setgid (env.getgid w) w).2)
        (env.setgid (env.getgid w) w).2).1 = 0
    · simp only [h1, h2, ne_eq, not_true_eq_false, if_false]
      split
      · simp [Event.is_drop_step]
      · cases hl
        · simp [Event.is_drop_step]
        · intro e he
          simp only [if_true, List.mem_append, List.mem_cons, List.mem_singleton,
            List.not_mem_nil, or_false] at he
          rcases he with (rfl | rfl) | he
          · rfl
          · rfl
          · exact drop_capabilities_events env _ e he
    · simp [h1, h2, Event.is_drop_step]
  · simp [h1, Event.is_drop_step]

theorem loop_body_events (env : Env W) (s : LoopState W) :
    ∀ e ∈ (loop_body env s).2, e.is_loop_call = true := by
  unfold loop_body read_step
  cases s.command_pipe_open
  · simp [Event.is_loop_call]
  · by_cases h1 : (env.read_commands (env.receive_replies (env.wait_for_activity
        (env.fflush FILE.stdout s.world)))).1 = 0
    · simp [h1, Event.is_loop_call]
    · by_cases h2 : env.errno (env.read_commands (env.receive_replies (env.wait_for_activity
        (env.fflush FILE.stdout s.world)))).2 = EPIPE <;> simp [h1, h2, Event.is_loop_call]

theorem iterate_events_loop_call (env : Env W) (n : Nat) (s : LoopState W) :
    ∀ e ∈ iterate_events env n s, e.is_loop_call = true := by
  induction n generalizing s with
  | zero => simp [iterate_events]
  | succ n ih =>
    intro e he
    simp only [iterate_events, List.mem_append] at he
    rcases he with he | he
    · exact loop_body_events env s e he
    · exact ih _ e he

theorem usage_events_mem (out : FILE) :
    ∀ e ∈ usage_events out, (∃ s, e = Event.fputs s out) ∨ e = Event.exit 0 := by
  intro e he
  simp only [usage_events, List.mem_append, List.mem_map, List.mem_singleton] at he
  rcases he with ⟨s, _, rfl⟩ | rfl
  · exact Or.inl ⟨s, rfl⟩
  · exact Or.inr rfl

/-- The two ways `main` goes on after option parsing. -/
theorem main_startup_cases (env : Env W) (hl : Bool) (fuel : Nat)
    (bind : Option String) (w : W) :
    ((drop_elevated_permissions env hl (env.init_net_state_privileged bind w)).ret ≠ 0 ∧
      main_startup env hl fuel bind w =
        (Outcome.exited EXIT_FAILURE,
          [Event.init_net_state_privileged bind] ++
            (drop_elevated_permissions env hl (env.init_net_state_privileged bind w)).events ++
            [Event.drop_elevated_permissions_return
              (drop_elevated_permissions env hl (env.init_net_state_privileged bind w)).ret] ++
            [Event.error EXIT_FAILURE
              (env.errno
                (drop_elevated_permissions env hl (env.init_net_state_privileged bind w)).world)
              "Unable to drop elevated permissions"])) ∨
    ((drop_elevated_permissions env hl (env.init_net_state_privileged bind w)).ret = 0 ∧
      main_startup env hl fuel bind w =
        ((match (event_loop env fuel (loop_entry env
            (drop_elevated_permissions env hl (env.init_net_state_privileged bind w)).world)).1 with
          | some _ => Outcome.exited 0
          | none => Outcome.out_of_fuel),
          [Event.init_net_state_privileged bind] ++
            (drop_elevated_permissions env hl (env.init_net_state_privileged bind w)).events ++
            [Event.drop_elevated_permissions_return 0] ++
            [Event.init_net_state, Event.init_command_buffer] ++
            (event_loop env fuel (loop_entry env
              (drop_elevated_permissions env hl
                (env.init_net_state_privileged bind w)).world)).2)) := by
  generalize hd : drop_elevated_permissions env hl (env.init_net_state_privileged bind w) = d
  by_cases h : d.ret = 0
  · right
    refine ⟨h, ?_⟩
    simp only [main_startup, hd, h, ne_eq, not_true_eq_false, if_false, main_unprivileged,
      loop_entry]
    cases (event_loop env fuel ⟨true, env.init_command_buffer (env.init_net_state d.world)⟩).1 <;>
      simp
  · left
    refine ⟨h, ?_⟩
    simp [main_startup, hd, h, error, EXIT_FAILURE]

/-- The four ways a bounded run of `main` can go, by how option parsing ends. -/
theorem main_cases (env : Env W) (hl : Bool) (fuel : Nat) (w : W) :
    ∃ pre : List Event, (∀ e ∈ pre, ∃ oa, e = Event.getopt_long hb 98 oa) ∧
      (main env hl fuel w = (Outcome.out_of_fuel, pre) ∨
       (∃ oa, main env hl fuel w
          = (Outcome.exited 0,
              pre ++ [Event.getopt_long hb 104 oa] ++ usage_events FILE.stdout)) ∨
       (∃ ret oa, ret ≠ -1 ∧ ret ≠ 98 ∧ ret ≠ 104 ∧
          main env hl fuel w
            = (Outcome.exited 0,
                pre ++ [Event.getopt_long hb ret oa] ++ usage_events FILE.stderr)) ∨
       (∃ oa w1, parse_options env hb fuel none w
            = (ParseResult.done (last_bind none pre) w1,
                pre ++ [Event.getopt_long hb (-1) oa]) ∧
          main env hl fuel w
            = ((main_startup env hl fuel (last_bind none pre) w1).1,
                pre ++ [Event.getopt_long hb (-1) oa] ++
                  (main_startup env hl fuel (last_bind none pre) w1).2))) := by
  obtain ⟨pre, hpre, _, hc⟩ := parse_options_cases env hb fuel none w
  refine ⟨pre, hpre, ?_⟩
  have hso : short_options env.uninit = some hb := short_options_eq env.uninit
  rcases hc with hc | ⟨oa, w1, hc⟩ | ⟨oa, w1, hc⟩ | ⟨ret, oa, w1, hr1, hr2, hr3, hc⟩
  · left; simp [main, hso, hc]
  · right; right; right
    exact ⟨oa, w1, hc, by simp [main, hso, hc]⟩
  · right; left
    exact ⟨oa, by simp [main, hso, hc]⟩
  · right; right; left
    exact ⟨ret, oa, hr1, hr2, hr3, by simp [main, hso, hc]⟩

theorem event_loop_events (env : Env W) (fuel : Nat) (s : LoopState W) :
    ∀ e ∈ (event_loop env fuel s).2, e.is_loop_call = true := by
  rcases event_loop_cases env fuel s with ⟨k, _, he, _, _⟩ | ⟨he, _⟩
  · rw [he]; exact iterate_events_loop_call env _ s
  · rw [he]; exact iterate_events_loop_call env _ s

theorem main_unprivileged_mono (env : Env W) (fuel : Nat) (w : W)
    (h : (main_unprivileged env fuel w).1 ≠ Outcome.out_of_fuel)
    (fuel2 : Nat) (hf : fuel ≤ fuel2) :
    main_unprivileged env fuel2 w = main_unprivileged env fuel w := by
  unfold main_unprivileged at h ⊢
  cases hl : (event_loop env fuel
    ⟨true, env.init_command_buffer (env.init_net_state w)⟩).1 with
  | none => simp [hl] at h
  | some sf => simp only [event_loop_mono env fuel _ sf hl fuel2 hf]

theorem main_startup_mono (env : Env W) (hl : Bool) (fuel : Nat) (bind : Option String)
    (w : W) (h : (main_startup env hl fuel bind w).1 ≠ Outcome.out_of_fuel)
    (fuel2 : Nat) (hf : fuel ≤ fuel2) :
    main_startup env hl fuel2 bind w = main_startup env hl fuel bind w := by
  simp only [main_startup] at h ⊢
  generalize drop_elevated_permissions env hl (env.init_net_state_privileged bind w) = d at h ⊢
  by_cases hd : d.ret = 0
  · simp only [hd, ne_eq, not_true_eq_false, if_false] at h ⊢
    rw [main_unprivileged_mono env fuel d.world h fuel2 hf]
  · simp [hd, error, EXIT_FAILURE]

/-- A run of `main` that did not stop for lack of fuel is the same run under any
larger fuel bound. -/
theorem main_mono (env : Env W) (hl : Bool) (fuel : Nat) (w : W)
    (h : (main env hl fuel w).1 ≠ Outcome.out_of_fuel)
    (fuel2 : Nat) (hf : fuel ≤ fuel2) :
    main env hl fuel2 w = main env hl fuel w := by
  have hso : short_options env.uninit = some hb := short_options_eq env.uninit
  simp only [main, hso] at h ⊢
  have hp : (parse_options env hb fuel none w).1 ≠ ParseResult.out_of_fuel := by
    intro hc
    rw [hc] at h
    exact h rfl
  rw [parse_options_mono env hb fuel none w hp fuel2 hf]
  cases hr : (parse_options env hb fuel none w).1 with
  | done bind w1 =>
    rw [hr] at h
    simp only at h ⊢
    rw [main_startup_mono env hl fuel bind w1 h fuel2 hf]
  | exited st w1 => rfl
  | out_of_fuel => exact absurd hr hp

/-! ## Lemmas on event classes -/

theorem getopt_of_pre {so : List Nat} {pre : List Event}
    (hpre : ∀ e ∈ pre, ∃ oa, e = Event.getopt_long so 98 oa) :
    ∀ e ∈ pre, e.is_getopt = true := by
  intro e he
  obtain ⟨oa, rfl⟩ := hpre e he
  rfl

theorem not_unprivileged_of_getopt {e : Event} (h : e.is_getopt = true) :
    e.is_unprivileged_call = false := by
  cases e <;> simp_all [Event.is_getopt, Event.is_unprivileged_call]

theorem not_unprivileged_of_drop_step {e : Event} (h : e.is_drop_step = true) :
    e.is_unprivileged_call = false := by
  cases e <;> simp_all [Event.is_drop_step, Event.is_unprivileged_call]

theorem not_unprivileged_of_usage {out : FILE} {e : Event} (h : e ∈ usage_events out) :
    e.is_unprivileged_call = false := by
  rcases usage_events_mem out e h with ⟨s, rfl⟩ | rfl <;> rfl

theorem not_drop_return_of_getopt {e : Event} (h : e.is_getopt = true) :
    e.is_drop_return = false := by
  cases e <;> simp_all [Event.is_getopt, Event.is_drop_return]

theorem not_drop_return_of_drop_step {e : Event} (h : e.is_drop_step = true) :
    e.is_drop_return = false := by
  cases e <;> simp_all [Event.is_drop_step, Event.is_drop_return]

theorem not_drop_return_of_loop_call {e : Event} (h : e.is_loop_call = true) :
    e.is_drop_return = false := by
  cases e <;> simp_all [Event.is_loop_call, Event.is_drop_return]

theorem not_drop_return_of_usage {out : FILE} {e : Event} (h : e ∈ usage_events out) :
    e.is_drop_return = false := by
  rcases usage_events_mem out e h with ⟨s, rfl⟩ | rfl <;> rfl

/-- An element with property `P` that occurs in `p ++ q`, where nothing in `p`
has `P`, occurs after all of `p`. -/
theorem after_of_split {α : Type} (P : α → Prop) {a b p q : List α} {e : α}
    (h : p ++ q = a ++ e :: b) (hp : ∀ x ∈ p, ¬ P x) (he : P e) :
    ∃ c, a = p ++ c ∧ q = c ++ e :: b := by
  rcases List.append_eq_append_iff.1 h with ⟨c, hc, hq⟩ | ⟨c, hc, hq⟩
  · exact ⟨c, hc, hq⟩
  · cases c with
    | nil => exact ⟨[], by simpa using hc.symm, by simpa using hq.symm⟩
    | cons x c =>
      exfalso
      simp only [List.cons_append, List.cons.injEq] at hq
      have hx : e ∈ p := by rw [hc]; simp [hq.1]
      exact hp e hx he

theorem class_of_loop_call {e : Event} (h : e.is_loop_call = true) :
    e.is_getopt = false ∧ e.is_privileged_init = false ∧ e.is_drop_step = false ∧
      e.is_drop_return = false := by
  cases e <;> simp_all [Event.is_loop_call, Event.is_getopt, Event.is_privileged_init,
    Event.is_drop_step, Event.is_drop_return]

theorem class_of_getopt {e : Event} (h : e.is_getopt = true) :
    e.is_unprivileged_call = false ∧ e.is_privileged_init = false ∧ e.is_drop_step = false ∧
      e.is_drop_return = false := by
  cases e <;> simp_all [Event.is_unprivileged_call, Event.is_getopt, Event.is_privileged_init,
    Event.is_drop_step, Event.is_drop_return]

theorem class_of_drop_step {e : Event} (h : e.is_drop_step = true) :
    e.is_unprivileged_call = false ∧ e.is_privileged_init = false ∧ e.is_getopt = false ∧
      e.is_drop_return = false := by
  cases e <;> simp_all [Event.is_unprivileged_call, Event.is_getopt, Event.is_privileged_init,
    Event.is_drop_step, Event.is_drop_return]

/-! ## Lemmas on single iterations -/

theorem iterate_events_add (env : Env W) (m n : Nat) (s : LoopState W) :
    iterate_events env (m + n) s
      = iterate_events env m s ++ iterate_events env n (iterate_body env m s) := by
  induction n with
  | zero => simp [iterate_events]
  | succ n ih =>
    have h : m + (n + 1) = (m + n) + 1 := by omega
    rw [h, iterate_events_succ, ih, iterate_events_succ, iterate_body_add]
    simp

theorem loop_body_closed (env : Env W) (s : LoopState W) (h : s.command_pipe_open = false) :
    loop_body env s =
      (⟨false, env.dispatch_buffer_commands (env.check_probe_timeouts
          (env.receive_replies (env.wait_for_activity (env.fflush FILE.stdout s.world))))⟩,
        [Event.fflush FILE.stdout, Event.wait_for_activity, Event.receive_replies,
          Event.check_probe_timeouts, Event.dispatch_buffer_commands]) := by
  simp [loop_body, read_step, h]

theorem loop_body_open_events (env : Env W) (s : LoopState W) (h : s.command_pipe_open = true) :
    (loop_body env s).2 =
      [Event.fflush FILE.stdout, Event.wait_for_activity, Event.receive_replies,
        Event.read_commands (env.read_commands (env.receive_replies
          (env.wait_for_activity (env.fflush FILE.stdout s.world)))).1,
        Event.check_probe_timeouts, Event.dispatch_buffer_commands] ∧
    (loop_body env s).1.world =
      env.dispatch_buffer_commands (env.check_probe_timeouts
        (env.read_commands (env.receive_replies
          (env.wait_for_activity (env.fflush FILE.stdout s.world)))).2) := by
  simp only [loop_body, read_step, h, if_true]
  split
  · split <;> simp
  · simp

theorem loop_body_open_flag (env : Env W) (s : LoopState W) (h : s.command_pipe_open = true) :
    ((loop_body env s).1.command_pipe_open = false ↔
      (env.read_commands (env.receive_replies
          (env.wait_for_activity (env.fflush FILE.stdout s.world)))).1 ≠ 0 ∧
        env.errno (env.read_commands (env.receive_replies
          (env.wait_for_activity (env.fflush FILE.stdout s.world)))).2 = EPIPE) := by
  simp only [loop_body, read_step, h, if_true]
  split
  · split <;> simp_all
  · simp_all

theorem iterate_body_closed (env : Env W) (n : Nat) (s : LoopState W)
    (h : s.command_pipe_open = false) :
    (iterate_body env n s).command_pipe_open = false := by
  induction n generalizing s with
  | zero => exact h
  | succ n ih =>
    show (iterate_body env n (loop_body env s).1).command_pipe_open = false
    exact ih _ (by rw [loop_body_closed env s h])

theorem iterate_events_closed (env : Env W) (n : Nat) (s : LoopState W)
    (h : s.command_pipe_open = false) :
    iterate_events env n s = (List.replicate n draining_events).flatten := by
  induction n generalizing s with
  | zero => rfl
  | succ n ih =>
    show (loop_body env s).2 ++ iterate_events env n (loop_body env s).1 = _
    rw [ih _ (by rw [loop_body_closed env s h]), loop_body_closed env s h]
    simp [List.replicate_succ, draining_events]

theorem main_of_done (env : Env W) (hl : Bool) (fuel : Nat) (w : W)
    (bind : Option String) (w1 : W)
    (hp : (parse_options env hb fuel none w).1 = ParseResult.done bind w1) :
    main env hl fuel w =
      ((main_startup env hl fuel bind w1).1,
        (parse_options env hb fuel none w).2 ++ (main_startup env hl fuel bind w1).2) := by
  have hso : short_options env.uninit = some hb := short_options_eq env.uninit
  simp only [main, hso, hp]

/-- After option parsing, `main` calls neither `getopt_long` nor `usage`. -/
theorem main_startup_events (env : Env W) (hl : Bool) (fuel : Nat) (bind : Option String)
    (w : W) :
    ∀ e ∈ (main_startup env hl fuel bind w).2, e.is_getopt = false ∧ e.is_usage_call = false := by
  have hde := drop_elevated_permissions_events env hl (env.init_net_state_privileged bind w)
  have hds : ∀ e ∈ (drop_elevated_permissions env hl
      (env.init_net_state_privileged bind w)).events,
      e.is_getopt = false ∧ e.is_usage_call = false := by
    intro e he
    have := hde e he
    cases e <;> simp_all [Event.is_drop_step, Event.is_getopt, Event.is_usage_call]
  have hls : ∀ s, ∀ e ∈ (event_loop env fuel s).2,
      e.is_getopt = false ∧ e.is_usage_call = false := by
    intro s e he
    have := event_loop_events env fuel s e he
    cases e <;> simp_all [Event.is_loop_call, Event.is_getopt, Event.is_usage_call]
  intro e he
  rcases main_startup_cases env hl fuel bind w with ⟨_, hs⟩ | ⟨_, hs⟩
  · rw [hs] at he
    simp only [List.mem_append, List.mem_singleton] at he
    rcases he with ((he | he) | he) | he
    · subst he; exact ⟨rfl, rfl⟩
    · exact hds e he
    · subst he; exact ⟨rfl, rfl⟩
    · subst he; exact ⟨rfl, rfl⟩
  · rw [hs] at he
    simp only [List.mem_append, List.mem_singleton, List.mem_cons, List.not_mem_nil,
      or_false] at he
    rcases he with (((he | he) | he) | (he | he)) | he
    · subst he; exact ⟨rfl, rfl⟩
    · exact hds e he
    · subst he; exact ⟨rfl, rfl⟩
    · subst he; exact ⟨rfl, rfl⟩
    · subst he; exact ⟨rfl, rfl⟩
    · exact hls _ e he

/-- A run of `main` in which `getopt_long` returned something other than `'b'` and
-1: the run is the `'b'` calls, that call, and `usage` on the stream chosen by
the `switch`. -/
theorem main_usage_run (env : Env W) (hl : Bool) (fuel : Nat) (w : W) (so : List Nat)
    (ret : Int) (oa : Option String)
    (h : Event.getopt_long so ret oa ∈ (main env hl fuel w).2)
    (hb : ret ≠ 98) (hm : ret ≠ -1) :
    ∃ pre : List Event, (∀ e ∈ pre, ∃ oa1, e = Event.getopt_long so 98 oa1) ∧
      main env hl fuel w =
        (Outcome.exited 0,
          pre ++ [Event.getopt_long so ret oa] ++
            usage_events (if ret = 104 then FILE.stdout else FILE.stderr)) := by
  obtain ⟨pre, hpre, hc⟩ := main_cases env hl fuel w
  rcases hc with hc | ⟨oa1, hc⟩ | ⟨ret1, oa1, _, _, hr3, hc⟩ | ⟨oa1, w1, _, hc⟩
  · exfalso
    rw [hc] at h
    obtain ⟨x, hx⟩ := hpre _ h
    cases hx
    exact hb rfl
  · rw [hc] at h
    simp only [List.mem_append, List.mem_singleton] at h
    rcases h with (h | h) | h
    · exfalso
      obtain ⟨x, hx⟩ := hpre _ h
      cases hx
      exact hb rfl
    · cases h
      exact ⟨pre, hpre, by rw [hc]; simp⟩
    · exfalso
      rcases usage_events_mem _ _ h with ⟨x, hx⟩ | hx <;> cases hx
  · rw [hc] at h
    simp only [List.mem_append, List.mem_singleton] at h
    rcases h with (h | h) | h
    · exfalso
      obtain ⟨x, hx⟩ := hpre _ h
      cases hx
      exact hb rfl
    · cases h
      exact ⟨pre, hpre, by rw [hc]; simp [hr3]⟩
    · exfalso
      rcases usage_events_mem _ _ h with ⟨x, hx⟩ | hx <;> cases hx
  · exfalso
    rw [hc] at h
    simp only [List.mem_append, List.mem_singleton] at h
    rcases h with (h | h) | h
    · obtain ⟨x, hx⟩ := hpre _ h
      cases hx
      exact hb rfl
    · cases h
      exact hm rfl
    · have := (main_startup_events env hl fuel _ w1 _ h).1
      simp [Event.is_getopt] at this

/-- In a run that is `'b'` calls, one more `getopt_long` call and `usage`, every
event is a `getopt_long` call or a call made by `usage`. -/
theorem usage_run_events {so : List Nat} {pre : List Event} {ret : Int} {oa : Option String}
    {out : FILE} (hpre : ∀ e ∈ pre, ∃ oa1, e = Event.getopt_long so 98 oa1) :
    ∀ e ∈ pre ++ [Event.getopt_long so ret oa] ++ usage_events out,
      e.is_getopt = true ∨ (∃ s, e = Event.fputs s out) ∨ e = Event.exit 0 := by
  intro e he
  simp only [List.mem_append, List.mem_singleton] at he
  rcases he with (he | he) | he
  · exact Or.inl (getopt_of_pre hpre e he)
  · subst he; exact Or.inl rfl
  · exact Or.inr (usage_events_mem out e he)

theorem quiet_of_usage_run {e : Event} {out : FILE}
    (h : e.is_getopt = true ∨ (∃ s, e = Event.fputs s out) ∨ e = Event.exit 0) :
    e.is_privileged_init = false ∧ e.is_drop_step = false ∧ e.is_drop_return = false ∧
      e.is_unprivileged_call = false ∧ e.is_loop_call = false := by
  rcases h with h | ⟨s, rfl⟩ | rfl
  · cases e <;> simp_all [Event.is_getopt, Event.is_privileged_init, Event.is_drop_step,
      Event.is_drop_return, Event.is_unprivileged_call, Event.is_loop_call]
  · exact ⟨rfl, rfl, rfl, rfl, rfl⟩
  · exact ⟨rfl, rfl, rfl, rfl, rfl⟩

/-- An `exit` call is the last event of any run of `main`, and its argument is the
exit status of the run. -/
theorem exit_is_last (env : Env W) (hl : Bool) (fuel : Nat) (w : W) (a b : List Event)
    (st : Int) (h : (main env hl fuel w).2 = a ++ Event.exit st :: b) :
    b = [] ∧ (main env hl fuel w).1 = Outcome.exited st := by
  have hmem : Event.exit st ∈ (main env hl fuel w).2 := by rw [h]; simp
  have usage_case : ∀ (p : List Event) (out : FILE),
      (∀ e ∈ p, e.is_getopt = true) →
      main env hl fuel w = (Outcome.exited 0, p ++ usage_events out) →
      b = [] ∧ (main env hl fuel w).1 = Outcome.exited st := by
    intro p out hp hc
    have hsp : (p ++ usage_text.map (fun s => Event.fputs s out)) ++ [Event.exit 0]
        = a ++ Event.exit st :: b := by
      rw [← h, hc]; simp [usage_events]
    have hnp : ∀ x ∈ p ++ usage_text.map (fun s => Event.fputs s out),
        ¬ (∃ t, x = Event.exit t) := by
      intro x hx
      simp only [List.mem_append, List.mem_map] at hx
      rcases hx with hx | ⟨s, _, rfl⟩
      · rintro ⟨t, rfl⟩
        have := hp _ hx
        simp [Event.is_getopt] at this
      · rintro ⟨t, ht⟩
        cases ht
    obtain ⟨c, _, hq⟩ := after_of_split (fun x => ∃ t, x = Event.exit t) hsp hnp ⟨st, rfl⟩
    cases c with
    | nil =>
      simp only [List.nil_append, List.cons.injEq, Event.exit.injEq] at hq
      exact ⟨hq.2.symm, by rw [hc, hq.1]⟩
    | cons x c =>
      simp at hq
  obtain ⟨pre, hpre, hc⟩ := main_cases env hl fuel w
  have hg := getopt_of_pre hpre
  rcases hc with hc | ⟨oa1, hc⟩ | ⟨ret1, oa1, _, _, _, hc⟩ | ⟨oa1, w1, _, hc⟩
  · exfalso
    rw [hc] at hmem
    have := hg _ hmem
    simp [Event.is_getopt] at this
  · refine usage_case (pre ++ [Event.getopt_long hb 104 oa1]) FILE.stdout ?_ hc
    intro e he
    simp only [List.mem_append, List.mem_singleton] at he
    rcases he with he | he
    · exact hg e he
    · subst he; rfl
  · refine usage_case (pre ++ [Event.getopt_long hb ret1 oa1]) FILE.stderr ?_ hc
    intro e he
    simp only [List.mem_append, List.mem_singleton] at he
    rcases he with he | he
    · exact hg e he
    · subst he; rfl
  · exfalso
    rw [hc] at hmem
    simp only [List.mem_append, List.mem_singleton] at hmem
    rcases hmem with (hm | hm) | hm
    · have := hg _ hm
      simp [Event.is_getopt] at this
    · cases hm
    · have := (main_startup_events env hl fuel _ w1 _ hm).2
      simp [Event.is_usage_call] at this

theorem same_ids_trans (env : Env W) {a b c : W} (h1 : same_ids env a b)
    (h2 : same_ids env b c) : same_ids env a c :=
  ⟨h1.1.trans h2.1, h1.2.1.trans h2.2.1, h1.2.2.1.trans h2.2.2.1, h1.2.2.2.trans h2.2.2.2⟩

theorem drop_capabilities_same_ids (env : Env W) (w : W) (hf : libcap_keeps_ids env) :
    same_ids env (drop_capabilities env w).world w := by
  unfold drop_capabilities
  have hg := hf.1 w
  rcases hc : env.cap_get_proc w with ⟨_ | cap, w1⟩
  · rw [hc] at hg
    simpa using hg
  · rw [hc] at hg
    have h1 := same_ids_trans env (hf.2.1 cap w1) hg
    have h2 := same_ids_trans env (hf.2.2 cap (env.cap_clear cap w1).2) h1
    by_cases hcl : (env.cap_clear cap w1).1 = 0
    · by_cases hs : (env.cap_set_proc cap (env.cap_clear cap w1).2).1 = 0
      · simpa [hcl, hs] using h2
      · simpa [hcl, hs] using h2
    · simpa [hcl] using h1

/-- On return 0 the world returned is the one `setuid` left, passed through the
libcap calls when `HAVE_LIBCAP` is set, and the IDs agreed in the former. -/
theorem drop_elevated_permissions_world (env : Env W) (hl : Bool) (w : W)
    (h : (drop_elevated_permissions env hl w).ret = 0) :
    ids_equal env (env.setuid (env.getuid (env.setgid (env.getgid w) w).2)
      (env.setgid (env.getgid w) w).2).2 ∧
    (drop_elevated_permissions env hl w).world =
      if hl = true then
        (drop_capabilities env (env.setuid (env.getuid (env.setgid (env.getgid w) w).2)
          (env.setgid (env.getgid w) w).2).2).world
      else
        (env.setuid (env.getuid (env.setgid (env.getgid w) w).2)
          (env.setgid (env.getgid w) w).2).2 := by
  unfold drop_elevated_permissions at h ⊢
  unfold ids_equal
  by_cases h1 : (env.setgid (env.getgid w) w).1 = 0
  · by_cases h2 : (env.setuid (env.getuid (env.setgid (env.getgid w) w).2)
        (env.setgid (env.getgid w) w).2).1 = 0
    · by_cases h3 : env.geteuid (env.setuid (env.getuid (env.setgid (env.getgid w) w).2)
          (env.setgid (env.getgid w) w).2).2 = env.getuid (env.setuid (env.getuid
          (env.setgid (env.getgid w) w).2) (env.setgid (env.getgid w) w).2).2
      · by_cases h4 : env.getegid (env.setuid (env.getuid (env.setgid (env.getgid w) w).2)
            (env.setgid (env.getgid w) w).2).2 = env.getgid (env.setuid (env.getuid
            (env.setgid (env.getgid w) w).2) (env.setgid (env.getgid w) w).2).2
        · cases hl <;> simp [h1, h2, h3, h4]
        · simp [h1, h2, h3, h4] at h
      · simp [h1, h2, h3] at h
    · simp [h1, h2] at h
  · simp [h1] at h

/-! ## The claims -/

/-- C10: the short-option string is built in bounds and is well formed.  For every
table of `N` entries and every buffer of `2 * N` bytes, the loop run over the
first `n` entries performs all its stores inside the buffer and leaves a write
index `p ≤ 2 * n` (this holds whatever the `has_arg` fields are).  For the table
of `main` the buffer then holds `'h'`, `'b'`, `':'` and a NUL byte, whatever it
held before, so `getopt_long` is handed the NUL-terminated string `"hb:"`. -/
theorem short_options_in_bounds_and_well_formed :
    (∀ (table : List LongOption) (buf : List Nat) (n : Nat),
        buf.length = 2 * table.length → n ≤ table.length →
        ∃ p buf1, short_options_loop (table.take n) (0, buf) = some (p, buf1) ∧
          p ≤ 2 * n ∧ buf1.length = 2 * table.length) ∧
    (∀ buf : List Nat, buf.length = num_options * 2 →
        build_short_options long_options buf
          = some (4, ['h'.toNat, 'b'.toNat, ':'.toNat, 0] ++ buf.drop 4)) ∧
    (∀ uninit : Nat → Nat,
        short_options uninit = some ['h'.toNat, 'b'.toNat, ':'.toNat] ∧
        String.mk (['h'.toNat, 'b'.toNat, ':'.toNat].map Char.ofNat) = "hb:") := by
  refine ⟨?_, build_short_options_actual, fun u => ⟨short_options_eq u, by decide⟩⟩
  intro table buf n hlen hn
  have hl : (table.take n).length = n := by simp [hn]
  obtain ⟨p, buf1, hr, hp, hb⟩ := short_options_loop_bound (table.take n) 0 buf (by omega)
  exact ⟨p, buf1, hr, by omega, by omega⟩

/-- Witness for C10: a four-entry table with an oversized `val`, run over its
first three entries on an eight-byte buffer. -/
theorem short_options_in_bounds_and_well_formed_witness :
    ∃ p buf1,
      short_options_loop
        (([⟨some "a", 1, 97⟩, ⟨some "big", 1, 300⟩, ⟨some "c", 0, 99⟩, ⟨none, 0, 0⟩] :
          List LongOption).take 3) (0, [1, 1, 1, 1, 1, 1, 1, 1]) = some (p, buf1) ∧
      p ≤ 2 * 3 ∧ buf1.length = 2 * 4 :=
  short_options_in_bounds_and_well_formed.1
    [⟨some "a", 1, 97⟩, ⟨some "big", 1, 300⟩, ⟨some "c", 0, 99⟩, ⟨none, 0, 0⟩]
    [1, 1, 1, 1, 1, 1, 1, 1] 3 (by decide) (by decide)


/-- C2: `drop_elevated_permissions` calls `setgid(getgid())`, then
`setuid(getuid())`, then compares effective with real IDs in the world `setuid`
left, then (with `HAVE_LIBCAP`) calls `cap_get_proc`, `cap_clear`, `cap_set_proc`.
It returns 0 exactly when both calls return 0, the IDs agree and, with
`HAVE_LIBCAP`, the three libcap calls succeed; otherwise it returns -1.  Its calls
are an initial segment of that sequence and the whole of it on success; `setuid`
is called only after `setgid` returned 0, and libcap only after the comparison
passed.  On return 0 the IDs agree in the world `setuid` left, which without
`HAVE_LIBCAP` is the world returned; with `HAVE_LIBCAP` they agree in the world
returned as well, provided the libcap calls do not touch the IDs. -/
theorem drop_elevated_permissions_spec (env : Env W) (HAVE_LIBCAP : Bool) (w : W) :
    let g := env.setgid (env.getgid w) w
    let u := env.setuid (env.getuid g.2) g.2
    let d := drop_elevated_permissions env HAVE_LIBCAP w
    ((d.ret = 0 ↔
      g.1 = 0 ∧ u.1 = 0 ∧ ids_equal env u.2 ∧ (HAVE_LIBCAP = true → caps_cleared env u.2)) ∧
    (d.ret ≠ 0 → d.ret = -1) ∧
    (d.ret = 0 → ids_equal env u.2) ∧
    (d.ret = 0 → HAVE_LIBCAP = false → d.world = u.2) ∧
    (d.events <+: drop_sequence env HAVE_LIBCAP w) ∧
    (d.ret = 0 → d.events = drop_sequence env HAVE_LIBCAP w) ∧
    (g.1 ≠ 0 → d.events = [Event.setgid (env.getgid w) g.1]) ∧
    ((∃ uid r, Event.setuid uid r ∈ d.events) → g.1 = 0) ∧
    ((∃ c, Event.cap_get_proc c ∈ d.events) →
      HAVE_LIBCAP = true ∧ g.1 = 0 ∧ u.1 = 0 ∧ ids_equal env u.2)) ∧
    (libcap_keeps_ids env → d.ret = 0 → ids_equal env d.world) := by
  intro g u d
  have hfinal : libcap_keeps_ids env → d.ret = 0 → ids_equal env d.world := by
    intro hf hr
    obtain ⟨hi, hw⟩ := drop_elevated_permissions_world env HAVE_LIBCAP w hr
    show ids_equal env (drop_elevated_permissions env HAVE_LIBCAP w).world
    rw [hw]
    cases HAVE_LIBCAP
    · simpa using hi
    · have hs := drop_capabilities_same_ids env (env.setuid (env.getuid
        (env.setgid (env.getgid w) w).2) (env.setgid (env.getgid w) w).2).2 hf
      simp only [if_true]
      unfold ids_equal at hi ⊢
      rw [hs.1, hs.2.1, hs.2.2.1, hs.2.2.2]
      exact hi
  refine ⟨?_, hfinal⟩
  clear hfinal
  have hd : d = drop_elevated_permissions env HAVE_LIBCAP w := rfl
  have hg : g = env.setgid (env.getgid w) w := rfl
  have hu : u = env.setuid (env.getuid g.2) g.2 := rfl
  clear_value d
  unfold drop_elevated_permissions at hd
  rw [← hg] at hd
  simp only [← hu] at hd
  unfold drop_sequence
  rw [← hg]
  simp only [← hu]
  unfold ids_equal caps_cleared
  clear_value g u
  by_cases h1 : g.1 = 0
  · by_cases h2 : u.1 = 0
    · by_cases h3 : env.geteuid u.2 = env.getuid u.2
      · by_cases h4 : env.getegid u.2 = env.getgid u.2
        · cases HAVE_LIBCAP
          · simp [h1, h2, h3, h4] at hd
            subst hd
            simp [h1, h2, h3, h4]
          · simp only [h1, h2, h3, h4, ne_eq, not_true_eq_false, if_false, or_self,
              if_true, drop_capabilities] at hd
            rcases hc : env.cap_get_proc u.2 with ⟨_ | cap, w1⟩
            · simp [hc] at hd
              subst hd
              simp [h1, h2, h3, h4]
            · by_cases h5 : (env.cap_clear cap w1).1 = 0
              · by_cases h6 : (env.cap_set_proc cap (env.cap_clear cap w1).2).1 = 0
                · simp [hc, h5, h6] at hd
                  subst hd
                  simp [h1, h2, h3, h4, h5, h6]
                · simp [hc, h5, h6] at hd
                  subst hd
                  simp [h1, h2, h3, h4, h5, h6]
              · simp [hc, h5] at hd
                subst hd
                simp [h1, h2, h3, h4, h5]
        · simp [h1, h2, h3, h4] at hd
          subst hd
          simp [h1, h2, h3, h4]
      · simp [h1, h2, h3] at hd
        subst hd
        simp [h1, h2, h3]
    · simp [h1, h2] at hd
      subst hd
      simp [h1, h2]
  · simp [h1] at hd
    subst hd
    simp [h1]

/-- C1: a failed privilege drop is fatal.  In every run of `main` in which
`drop_elevated_permissions` returns a non-zero value, the process exits with
status `EXIT_FAILURE`, which is non-zero, and the run contains no call of
`init_net_state`, `init_command_buffer`, `read_commands` or
`dispatch_buffer_commands` (nor of any other unprivileged net-state or
command-buffer function).  The run is the same under every larger fuel bound. -/
theorem drop_failure_is_fatal (env : Env W) (HAVE_LIBCAP : Bool) (fuel : Nat) (w : W)
    (r : Int) (hr : r ≠ 0)
    (h : Event.drop_elevated_permissions_return r ∈ (main env HAVE_LIBCAP fuel w).2) :
    (main env HAVE_LIBCAP fuel w).1 = Outcome.exited EXIT_FAILURE ∧
    EXIT_FAILURE ≠ 0 ∧
    Event.init_net_state ∉ (main env HAVE_LIBCAP fuel w).2 ∧
    Event.init_command_buffer ∉ (main env HAVE_LIBCAP fuel w).2 ∧
    (∀ x, Event.read_commands x ∉ (main env HAVE_LIBCAP fuel w).2) ∧
    Event.dispatch_buffer_commands ∉ (main env HAVE_LIBCAP fuel w).2 ∧
    (∀ e ∈ (main env HAVE_LIBCAP fuel w).2, e.is_unprivileged_call = false) ∧
    (∀ fuel2, fuel ≤ fuel2 →
      main env HAVE_LIBCAP fuel2 w = main env HAVE_LIBCAP fuel w) := by
  have key : (main env HAVE_LIBCAP fuel w).1 = Outcome.exited EXIT_FAILURE ∧
      ∀ e ∈ (main env HAVE_LIBCAP fuel w).2, e.is_unprivileged_call = false := by
    have hdr : (Event.drop_elevated_permissions_return r).is_drop_return = true := rfl
    obtain ⟨pre, hpre, hc⟩ := main_cases env HAVE_LIBCAP fuel w
    have hg := getopt_of_pre hpre
    rcases hc with hc | ⟨oa, hc⟩ | ⟨ret, oa, _, _, _, hc⟩ | ⟨oa, w1, _, hc⟩
    · rw [hc] at h
      have := not_drop_return_of_getopt (hg _ h)
      simp [hdr] at this
    · rw [hc] at h
      simp only [List.mem_append, List.mem_singleton] at h
      rcases h with (h | h) | h
      · have := not_drop_return_of_getopt (hg _ h); simp [hdr] at this
      · cases h
      · have := not_drop_return_of_usage h; simp [hdr] at this
    · rw [hc] at h
      simp only [List.mem_append, List.mem_singleton] at h
      rcases h with (h | h) | h
      · have := not_drop_return_of_getopt (hg _ h); simp [hdr] at this
      · cases h
      · have := not_drop_return_of_usage h; simp [hdr] at this
    · have hde := drop_elevated_permissions_events env HAVE_LIBCAP
        (env.init_net_state_privileged (last_bind none pre) w1)
      rcases main_startup_cases env HAVE_LIBCAP fuel (last_bind none pre) w1 with
        ⟨hd, hs⟩ | ⟨hd, hs⟩
      · rw [hc, hs]
        refine ⟨rfl, ?_⟩
        intro e he
        simp only [List.mem_append, List.mem_singleton] at he
        rcases he with (he | he) | (((he | he) | he) | he)
        · exact not_unprivileged_of_getopt (hg _ he)
        · subst he; rfl
        · subst he; rfl
        · exact not_unprivileged_of_drop_step (hde _ he)
        · subst he; rfl
        · subst he; rfl
      · exfalso
        rw [hc, hs] at h
        simp only [List.mem_append, List.mem_singleton, List.mem_cons, List.not_mem_nil,
          or_false] at h
        rcases h with (h | h) | ((((h | h) | h) | h) | h)
        · have := not_drop_return_of_getopt (hg _ h); simp [hdr] at this
        · cases h
        · cases h
        · have := not_drop_return_of_drop_step (hde _ h); simp [hdr] at this
        · cases h; exact hr rfl
        · rcases h with h | h <;> cases h
        · have := not_drop_return_of_loop_call (event_loop_events env _ _ _ h)
          simp [hdr] at this
  refine ⟨key.1, by decide, ?_, ?_, ?_, ?_, key.2, ?_⟩
  · intro hm; have := key.2 _ hm; simp [Event.is_unprivileged_call] at this
  · intro hm; have := key.2 _ hm; simp [Event.is_unprivileged_call] at this
  · intro x hm; have := key.2 _ hm; simp [Event.is_unprivileged_call] at this
  · intro hm; have := key.2 _ hm; simp [Event.is_unprivileged_call] at this
  · intro fuel2 hf
    exact main_mono env HAVE_LIBCAP fuel w (by rw [key.1]; intro hc; cases hc) fuel2 hf

/-- C3: privileged acquisition strictly precedes the privilege drop.  In every
run of `main` in which `getopt_long` returned -1, the trace is: `getopt_long`
calls only; then one call of `init_net_state_privileged`, with the argument of the
last `getopt_long` call that returned `'b'` (`NULL` when there is none); then the
calls made inside `drop_elevated_permissions`; then its return; then the rest,
which holds no call of the unprivileged functions when the return value is
non-zero.  So `init_net_state_privileged` is called exactly once, before any step
of the drop, and every call of `init_net_state`, `init_command_buffer`,
`wait_for_activity`, `receive_replies`, `read_commands`, `check_probe_timeouts`
and `dispatch_buffer_commands` comes after `drop_elevated_permissions` returned 0. -/
theorem privileged_init_precedes_drop (env : Env W) (HAVE_LIBCAP : Bool) (fuel : Nat)
    (w : W) (so : List Nat) (oa : Option String)
    (h : Event.getopt_long so (-1) oa ∈ (main env HAVE_LIBCAP fuel w).2) :
    (∃ pre steps r post,
      (main env HAVE_LIBCAP fuel w).2 =
        pre ++ [Event.init_net_state_privileged (last_bind none pre)] ++ steps ++
          [Event.drop_elevated_permissions_return r] ++ post ∧
      (∀ e ∈ pre, e.is_getopt = true) ∧
      (∀ e ∈ steps, e.is_drop_step = true) ∧
      (∀ e ∈ post, e.is_getopt = false ∧ e.is_privileged_init = false ∧
        e.is_drop_step = false ∧ e.is_drop_return = false) ∧
      (r ≠ 0 → ∀ e ∈ post, e.is_unprivileged_call = false)) ∧
    (main env HAVE_LIBCAP fuel w).2.countP Event.is_privileged_init = 1 ∧
    (∀ a e b, (main env HAVE_LIBCAP fuel w).2 = a ++ e :: b →
      (e.is_drop_step = true ∨ e.is_drop_return = true) →
      ∃ bind, Event.init_net_state_privileged bind ∈ a) ∧
    (∀ a e b, (main env HAVE_LIBCAP fuel w).2 = a ++ e :: b →
      e.is_unprivileged_call = true →
      Event.drop_elevated_permissions_return 0 ∈ a) := by
  -- the shape of the trace
  have shape : ∃ pre steps r post,
      (main env HAVE_LIBCAP fuel w).2 =
        pre ++ [Event.init_net_state_privileged (last_bind none pre)] ++ steps ++
          [Event.drop_elevated_permissions_return r] ++ post ∧
      (∀ e ∈ pre, e.is_getopt = true) ∧
      (∀ e ∈ steps, e.is_drop_step = true) ∧
      (∀ e ∈ post, e.is_getopt = false ∧ e.is_privileged_init = false ∧
        e.is_drop_step = false ∧ e.is_drop_return = false) ∧
      (r ≠ 0 → ∀ e ∈ post, e.is_unprivileged_call = false) ∧
      (∀ e ∈ post, e.is_unprivileged_call = true → r = 0) := by
    obtain ⟨pre, hpre, hc⟩ := main_cases env HAVE_LIBCAP fuel w
    have hg := getopt_of_pre hpre
    rcases hc with hc | ⟨oa1, hc⟩ | ⟨ret, oa1, hr1, _, _, hc⟩ | ⟨oa1, w1, _, hc⟩
    · exfalso
      rw [hc] at h
      obtain ⟨x, hx⟩ := hpre _ h
      cases hx
    · exfalso
      rw [hc] at h
      simp only [List.mem_append, List.mem_singleton] at h
      rcases h with (h | h) | h
      · obtain ⟨x, hx⟩ := hpre _ h; cases hx
      · cases h
      · rcases usage_events_mem _ _ h with ⟨x, hx⟩ | hx <;> cases hx
    · exfalso
      rw [hc] at h
      simp only [List.mem_append, List.mem_singleton] at h
      rcases h with (h | h) | h
      · obtain ⟨x, hx⟩ := hpre _ h; cases hx
      · cases h; exact hr1 rfl
      · rcases usage_events_mem _ _ h with ⟨x, hx⟩ | hx <;> cases hx
    · have hde := drop_elevated_permissions_events env HAVE_LIBCAP
        (env.init_net_state_privileged (last_bind none pre) w1)
      have hlb : last_bind none (pre ++ [Event.getopt_long hb (-1) oa1]) = last_bind none pre :=
        last_bind_append_other none pre hb (-1) oa1 (by decide)
      have hpre2 : ∀ e ∈ pre ++ [Event.getopt_long hb (-1) oa1], e.is_getopt = true := by
        intro e he
        simp only [List.mem_append, List.mem_singleton] at he
        rcases he with he | he
        · exact hg _ he
        · subst he; rfl
      rcases main_startup_cases env HAVE_LIBCAP fuel (last_bind none pre) w1 with
        ⟨hd, hs⟩ | ⟨hd, hs⟩
      · refine ⟨pre ++ [Event.getopt_long hb (-1) oa1],
          (drop_elevated_permissions env HAVE_LIBCAP
            (env.init_net_state_privileged (last_bind none pre) w1)).events,
          (drop_elevated_permissions env HAVE_LIBCAP
            (env.init_net_state_privileged (last_bind none pre) w1)).ret,
          [Event.error EXIT_FAILURE
            (env.errno (drop_elevated_permissions env HAVE_LIBCAP
              (env.init_net_state_privileged (last_bind none pre) w1)).world)
            "Unable to drop elevated permissions"],
          ?_, hpre2, hde, ?_, ?_, ?_⟩
        · rw [hc, hs, hlb]; simp
        · intro e he; simp only [List.mem_singleton] at he; subst he; exact ⟨rfl, rfl, rfl, rfl⟩
        · intro _ e he; simp only [List.mem_singleton] at he; subst he; rfl
        · intro e he hu; simp only [List.mem_singleton] at he; subst he; cases hu
      · refine ⟨pre ++ [Event.getopt_long hb (-1) oa1],
          (drop_elevated_permissions env HAVE_LIBCAP
            (env.init_net_state_privileged (last_bind none pre) w1)).events, 0,
          [Event.init_net_state, Event.init_command_buffer] ++
            (event_loop env fuel (loop_entry env (drop_elevated_permissions env HAVE_LIBCAP
              (env.init_net_state_privileged (last_bind none pre) w1)).world)).2,
          ?_, hpre2, hde, ?_, ?_, ?_⟩
        · rw [hc, hs, hlb]; simp
        · intro e he
          simp only [List.mem_append, List.mem_cons, List.mem_singleton, List.not_mem_nil,
            or_false] at he
          rcases he with (he | he) | he
          · subst he; exact ⟨rfl, rfl, rfl, rfl⟩
          · subst he; exact ⟨rfl, rfl, rfl, rfl⟩
          · exact class_of_loop_call (event_loop_events env _ _ _ he)
        · intro hr0; exact absurd rfl hr0
        · intro _ _ _; rfl
  obtain ⟨pre, steps, r, post, htr, hpre, hsteps, hpost, hfail, hok⟩ := shape
  refine ⟨⟨pre, steps, r, post, htr, hpre, hsteps, hpost, hfail⟩, ?_, ?_, ?_⟩
  · rw [htr]
    have h1 : List.countP Event.is_privileged_init pre = 0 :=
      List.countP_eq_zero.2 (fun e he => by simp [(class_of_getopt (hpre e he)).2.1])
    have h2 : List.countP Event.is_privileged_init steps = 0 :=
      List.countP_eq_zero.2 (fun e he => by simp [(class_of_drop_step (hsteps e he)).2.1])
    have h3 : List.countP Event.is_privileged_init post = 0 :=
      List.countP_eq_zero.2 (fun e he => by simp [(hpost e he).2.1])
    simp [List.countP_append, h1, h2, h3, List.countP_cons, Event.is_privileged_init]
  · intro a e b hsplit he
    have hsp : pre ++ ([Event.init_net_state_privileged (last_bind none pre)] ++ steps ++
        [Event.drop_elevated_permissions_return r] ++ post) = a ++ e :: b := by
      rw [← hsplit, htr]; simp
    have hnp : ∀ x ∈ pre, ¬ (x.is_drop_step = true ∨ x.is_drop_return = true) := by
      intro x hx
      have := class_of_getopt (hpre x hx)
      simp [this.2.2.1, this.2.2.2]
    obtain ⟨c, ha, hq⟩ := after_of_split
      (fun x => x.is_drop_step = true ∨ x.is_drop_return = true) hsp hnp he
    simp only [List.append_assoc, List.singleton_append] at hq
    cases c with
    | nil =>
      exfalso
      have h1 := List.head_eq_of_cons_eq hq
      rcases he with he | he <;> · rw [← h1] at he; cases he
    | cons x c =>
      have h1 := List.head_eq_of_cons_eq hq
      refine ⟨last_bind none pre, ?_⟩
      rw [ha, h1]
      simp
  · intro a e b hsplit he
    have hsp : (pre ++ [Event.init_net_state_privileged (last_bind none pre)] ++ steps ++
        [Event.drop_elevated_permissions_return r]) ++ post = a ++ e :: b := by
      rw [← hsplit, htr]
    have hnp : ∀ x ∈ pre ++ [Event.init_net_state_privileged (last_bind none pre)] ++ steps ++
        [Event.drop_elevated_permissions_return r], ¬ (x.is_unprivileged_call = true) := by
      intro x hx
      simp only [List.mem_append, List.mem_singleton] at hx
      rcases hx with ((hx | hx) | hx) | hx
      · simp [(class_of_getopt (hpre x hx)).1]
      · subst hx; simp [Event.is_unprivileged_call]
      · simp [(class_of_drop_step (hsteps x hx)).1]
      · subst hx; simp [Event.is_unprivileged_call]
    obtain ⟨c, ha, hq⟩ := after_of_split (fun x => x.is_unprivileged_call = true) hsp hnp he
    have hr0 : r = 0 := hok e (by rw [hq]; simp) he
    rw [ha, hr0]
    simp

/-- C4: the event loop ends exactly when the command pipe is closed and no probe
is outstanding.  The `break` at the end of an iteration is taken if and only if
`command_pipe_open` is false and `outstanding_probe_count` is 0 in the state the
iteration leaves.  A bounded run of the loop ends within its fuel if and only if
some iteration `k + 1` within the fuel leaves such a state; it then ends at the
first such iteration, with exactly that state, and does so under every fuel bound
above `k`.  When option parsing and the privilege drop have succeeded, `main`
returns exit status 0 exactly in that case, and otherwise is still in the loop
when the fuel runs out. -/
theorem event_loop_exit_condition (env : Env W) (HAVE_LIBCAP : Bool) (fuel : Nat) (w : W) :
    (∀ s : LoopState W,
      loop_break env s = true ↔
        (s.command_pipe_open = false ∧ env.outstanding_probe_count s.world = 0)) ∧
    (∀ s sf : LoopState W,
      (event_loop env fuel s).1 = some sf ↔
        ∃ k, k < fuel ∧ sf = iterate_body env (k + 1) s ∧ drained env sf ∧
          ∀ j, j < k → ¬ drained env (iterate_body env (j + 1) s)) ∧
    (∀ (s : LoopState W) (k : Nat),
      drained env (iterate_body env (k + 1) s) →
      (∀ j, j < k → ¬ drained env (iterate_body env (j + 1) s)) →
      ∀ fuel2, k < fuel2 →
        event_loop env fuel2 s
          = (some (iterate_body env (k + 1) s), iterate_events env (k + 1) s)) ∧
    (∀ (bind : Option String) (w1 : W),
      (parse_options env hb fuel none w).1 = ParseResult.done bind w1 →
      (drop_elevated_permissions env HAVE_LIBCAP
        (env.init_net_state_privileged bind w1)).ret = 0 →
      ((main env HAVE_LIBCAP fuel w).1 = Outcome.exited 0 ↔
        ∃ k, k < fuel ∧
          drained env (iterate_body env (k + 1) (loop_entry env
            (drop_elevated_permissions env HAVE_LIBCAP
              (env.init_net_state_privileged bind w1)).world))) ∧
      ((main env HAVE_LIBCAP fuel w).1 = Outcome.out_of_fuel ↔
        ∀ k, k < fuel →
          ¬ drained env (iterate_body env (k + 1) (loop_entry env
            (drop_elevated_permissions env HAVE_LIBCAP
              (env.init_net_state_privileged bind w1)).world)))) := by
  have first : ∀ (s : LoopState W) (k : Nat),
      drained env (iterate_body env (k + 1) s) →
      (∀ j, j < k → ¬ drained env (iterate_body env (j + 1) s)) →
      ∀ fuel2, k < fuel2 →
        event_loop env fuel2 s
          = (some (iterate_body env (k + 1) s), iterate_events env (k + 1) s) := by
    intro s k hk hj fuel2 hf
    rcases event_loop_cases env fuel2 s with ⟨k2, hk2, he, hd, hj2⟩ | ⟨_, hno⟩
    · have hkk : k2 = k := by
        rcases Nat.lt_trichotomy k2 k with hlt | heq | hgt
        · exact absurd hd (hj k2 hlt)
        · exact heq
        · exact absurd hk (hj2 k hgt)
      rw [he, hkk]
    · exact absurd hk (hno k hf)
  refine ⟨fun s => loop_break_iff env s, ?_, first, ?_⟩
  · intro s sf
    constructor
    · intro h
      rcases event_loop_cases env fuel s with ⟨k, hk, he, hd, hj⟩ | ⟨he, _⟩
      · rw [he] at h
        simp only [Option.some.injEq] at h
        exact ⟨k, hk, h.symm, h ▸ hd, hj⟩
      · rw [he] at h
        cases h
    · rintro ⟨k, hk, rfl, hd, hj⟩
      rw [first s k hd hj fuel hk]
  · intro bind w1 hp hd
    rw [main_of_done env HAVE_LIBCAP fuel w bind w1 hp]
    rcases main_startup_cases env HAVE_LIBCAP fuel bind w1 with ⟨hd2, _⟩ | ⟨_, hs⟩
    · exact absurd hd hd2
    · rw [hs]
      rcases event_loop_cases env fuel (loop_entry env (drop_elevated_permissions env HAVE_LIBCAP
          (env.init_net_state_privileged bind w1)).world) with ⟨k, hk, he, hdr, _⟩ | ⟨he, hno⟩
      · rw [he]
        refine ⟨⟨fun _ => ⟨k, hk, hdr⟩, fun _ => rfl⟩, ⟨fun h => ?_, fun h => ?_⟩⟩
        · cases h
        · exact absurd hdr (h k hk)
      · rw [he]
        refine ⟨⟨fun h => ?_, fun h => ?_⟩, ⟨fun _ => hno, fun _ => rfl⟩⟩
        · cases h
        · obtain ⟨k, hk, hdr⟩ := h
          exact absurd hdr (hno k hk)

/-- C5: every iteration of the event loop runs `fflush(stdout)`,
`wait_for_activity`, `receive_replies`, then `read_commands` only when the command
pipe is open, then `check_probe_timeouts`, then `dispatch_buffer_commands`, each
once, threading the world in that order.  The events of a bounded run of the loop
are those of its first iterations, and every loop event of a run of `main` lies
in such a sequence of iterations. -/
theorem loop_iteration_order (env : Env W) (HAVE_LIBCAP : Bool) (fuel : Nat) (w : W) :
    (∀ s : LoopState W,
      (loop_body env s).2 =
        [Event.fflush FILE.stdout, Event.wait_for_activity, Event.receive_replies] ++
          (if s.command_pipe_open = true then
            [Event.read_commands (env.read_commands (env.receive_replies
              (env.wait_for_activity (env.fflush FILE.stdout s.world)))).1]
           else []) ++
          [Event.check_probe_timeouts, Event.dispatch_buffer_commands] ∧
      (loop_body env s).1.world =
        env.dispatch_buffer_commands (env.check_probe_timeouts
          (if s.command_pipe_open = true then
            (env.read_commands (env.receive_replies
              (env.wait_for_activity (env.fflush FILE.stdout s.world)))).2
           else
            env.receive_replies (env.wait_for_activity (env.fflush FILE.stdout s.world)))) ∧
      (loop_body env s).2.count (Event.fflush FILE.stdout) = 1 ∧
      (loop_body env s).2.count Event.wait_for_activity = 1 ∧
      (loop_body env s).2.count Event.receive_replies = 1 ∧
      (loop_body env s).2.countP (fun e => e matches Event.read_commands _)
        = (if s.command_pipe_open = true then 1 else 0) ∧
      (loop_body env s).2.count Event.check_probe_timeouts = 1 ∧
      (loop_body env s).2.count Event.dispatch_buffer_commands = 1) ∧
    (∀ (n : Nat) (s : LoopState W),
      iterate_events env (n + 1) s
        = iterate_events env n s ++ (loop_body env (iterate_body env n s)).2) ∧
    (∀ s : LoopState W, ∃ n, n ≤ fuel ∧ (event_loop env fuel s).2 = iterate_events env n s) ∧
    (∃ pre n s0, (main env HAVE_LIBCAP fuel w).2 = pre ++ iterate_events env n s0 ∧
      n ≤ fuel ∧ ∀ e ∈ pre, e.is_loop_call = false) := by
  have hloop : ∀ s : LoopState W, ∃ n, n ≤ fuel ∧
      (event_loop env fuel s).2 = iterate_events env n s := by
    intro s
    rcases event_loop_cases env fuel s with ⟨k, hk, he, _, _⟩ | ⟨he, _⟩
    · exact ⟨k + 1, hk, by rw [he]⟩
    · exact ⟨fuel, le_refl _, by rw [he]⟩
  refine ⟨?_, fun n s => iterate_events_succ env n s, hloop, ?_⟩
  · intro s
    cases hs : s.command_pipe_open with
    | false =>
      rw [loop_body_closed env s hs]
      simp
    | true =>
      obtain ⟨h1, h2⟩ := loop_body_open_events env s hs
      rw [h1, h2]
      simp
  · obtain ⟨pre, hpre, hc⟩ := main_cases env HAVE_LIBCAP fuel w
    have hg : ∀ e ∈ pre, e.is_loop_call = false := by
      intro e he
      obtain ⟨oa, rfl⟩ := hpre e he
      rfl
    have hu : ∀ out, ∀ e ∈ usage_events out, e.is_loop_call = false := by
      intro out e he
      rcases usage_events_mem out e he with ⟨x, rfl⟩ | rfl <;> rfl
    rcases hc with hc | ⟨oa, hc⟩ | ⟨ret, oa, _, _, _, hc⟩ | ⟨oa, w1, _, hc⟩
    · exact ⟨pre, 0, ⟨true, w⟩, by rw [hc]; simp [iterate_events], Nat.zero_le _, hg⟩
    · refine ⟨(main env HAVE_LIBCAP fuel w).2, 0, ⟨true, w⟩, by simp [iterate_events],
        Nat.zero_le _, ?_⟩
      intro e he
      rw [hc] at he
      simp only [List.mem_append, List.mem_singleton] at he
      rcases he with (he | he) | he
      · exact hg e he
      · subst he; rfl
      · exact hu _ e he
    · refine ⟨(main env HAVE_LIBCAP fuel w).2, 0, ⟨true, w⟩, by simp [iterate_events],
        Nat.zero_le _, ?_⟩
      intro e he
      rw [hc] at he
      simp only [List.mem_append, List.mem_singleton] at he
      rcases he with (he | he) | he
      · exact hg e he
      · subst he; rfl
      · exact hu _ e he
    · have hde := drop_elevated_permissions_events env HAVE_LIBCAP
        (env.init_net_state_privileged (last_bind none pre) w1)
      have hds : ∀ e ∈ (drop_elevated_permissions env HAVE_LIBCAP
          (env.init_net_state_privileged (last_bind none pre) w1)).events,
          e.is_loop_call = false := by
        intro e he
        have := hde e he
        cases e <;> simp_all [Event.is_drop_step, Event.is_loop_call]
      rcases main_startup_cases env HAVE_LIBCAP fuel (last_bind none pre) w1 with
        ⟨_, hs⟩ | ⟨_, hs⟩
      · refine ⟨(main env HAVE_LIBCAP fuel w).2, 0, ⟨true, w⟩, by simp [iterate_events],
          Nat.zero_le _, ?_⟩
        intro e he
        rw [hc, hs] at he
        simp only [List.mem_append, List.mem_singleton] at he
        rcases he with (he | he) | (((he | he) | he) | he)
        · exact hg e he
        · subst he; rfl
        · subst he; rfl
        · exact hds e he
        · subst he; rfl
        · subst he; rfl
      · obtain ⟨n, hn, hev⟩ := hloop (loop_entry env (drop_elevated_permissions env HAVE_LIBCAP
          (env.init_net_state_privileged (last_bind none pre) w1)).world)
        refine ⟨pre ++ [Event.getopt_long hb (-1) oa] ++
          ([Event.init_net_state_privileged (last_bind none pre)] ++
            (drop_elevated_permissions env HAVE_LIBCAP
              (env.init_net_state_privileged (last_bind none pre) w1)).events ++
            [Event.drop_elevated_permissions_return 0] ++
            [Event.init_net_state, Event.init_command_buffer]), n,
          loop_entry env (drop_elevated_permissions env HAVE_LIBCAP
            (env.init_net_state_privileged (last_bind none pre) w1)).world, ?_, hn, ?_⟩
        · rw [hc, hs, hev]; simp
        · intro e he
          simp only [List.mem_append, List.mem_singleton, List.mem_cons, List.not_mem_nil,
            or_false] at he
          rcases he with (he | he) | (((he | he) | he) | (he | he))
          · exact hg e he
          · subst he; rfl
          · subst he; rfl
          · exact hds e he
          · subst he; rfl
          · subst he; rfl
          · subst he; rfl

/-- C6: draining is permanent.  If the loop, started in any state `s0`, has
`command_pipe_open = false` after `k` iterations, then after every later
iteration it is still false, and each later iteration consists of exactly
`fflush`, `wait_for_activity`, `receive_replies`, `check_probe_timeouts`,
`dispatch_buffer_commands`: `read_commands` is not called again, while
`receive_replies` and `check_probe_timeouts` are called once in each.  A bounded
run of the loop executes an initial segment of these iterations, and ends with
the pipe still closed. -/
theorem draining_is_permanent (env : Env W) (s0 : LoopState W) (k : Nat)
    (h : (iterate_body env k s0).command_pipe_open = false) (n : Nat) :
    (iterate_body env (k + n) s0).command_pipe_open = false ∧
    (loop_body env (iterate_body env (k + n) s0)).2 = draining_events ∧
    iterate_events env (k + n) s0
      = iterate_events env k s0 ++ (List.replicate n draining_events).flatten ∧
    (∀ r, Event.read_commands r ∉ (List.replicate n draining_events).flatten) ∧
    (List.replicate n draining_events).flatten.count Event.receive_replies = n ∧
    (List.replicate n draining_events).flatten.count Event.check_probe_timeouts = n ∧
    (∀ fuel, ∃ m, m ≤ fuel ∧
      (event_loop env fuel (iterate_body env k s0)).2
        = (List.replicate m draining_events).flatten ∧
      ∀ sf, (event_loop env fuel (iterate_body env k s0)).1 = some sf →
        sf.command_pipe_open = false) := by
  have hc : (iterate_body env (k + n) s0).command_pipe_open = false := by
    rw [iterate_body_add]
    exact iterate_body_closed env n _ h
  have hcount : ∀ (e : Event) (c : Nat), draining_events.count e = c →
      ∀ m : Nat, (List.replicate m draining_events).flatten.count e = m * c := by
    intro e c hc m
    induction m with
    | zero => simp
    | succ m ih =>
      rw [List.replicate_succ, List.flatten_cons, List.count_append, ih, hc]
      ring
  refine ⟨hc, ?_, ?_, ?_, ?_, ?_, ?_⟩
  · rw [loop_body_closed env _ hc]
    rfl
  · rw [iterate_events_add, iterate_events_closed env n _ h]
  · intro r hr
    simp only [List.mem_flatten, List.mem_replicate] at hr
    obtain ⟨l, ⟨_, rfl⟩, hl⟩ := hr
    simp [draining_events] at hl
  · simpa using hcount Event.receive_replies 1 (by decide) n
  · simpa using hcount Event.check_probe_timeouts 1 (by decide) n
  · intro fuel
    rcases event_loop_cases env fuel (iterate_body env k s0) with ⟨j, hj, he, _, _⟩ | ⟨he, _⟩
    · refine ⟨j + 1, hj, ?_, ?_⟩
      · rw [he]
        exact iterate_events_closed env (j + 1) _ h
      · intro sf hsf
        rw [he] at hsf
        simp only [Option.some.injEq] at hsf
        rw [← hsf]
        exact iterate_body_closed env (j + 1) _ h
    · refine ⟨fuel, le_refl _, ?_, ?_⟩
      · rw [he]
        exact iterate_events_closed env fuel _ h
      · intro sf hsf
        rw [he] at hsf
        cases hsf

/-- C7: the loop goes from running to draining exactly when a read reports a
broken pipe.  For an iteration that starts with `command_pipe_open = true`, the
flag is false after the read step (and so at the end of the iteration) if and
only if `read_commands` returned non-zero and `errno` is `EPIPE` after the call.
Otherwise the flag stays true, the `break` is not taken, the run of the loop goes
on with the next iteration, and that iteration calls `read_commands` again. -/
theorem running_to_draining (env : Env W) (s : LoopState W)
    (h : s.command_pipe_open = true) :
    let w3 := env.receive_replies (env.wait_for_activity (env.fflush FILE.stdout s.world))
    let r := env.read_commands w3
    ((read_step env s.command_pipe_open w3).1 = false ↔ (r.1 ≠ 0 ∧ env.errno r.2 = EPIPE)) ∧
    ((loop_body env s).1.command_pipe_open = false ↔ (r.1 ≠ 0 ∧ env.errno r.2 = EPIPE)) ∧
    (¬ (r.1 ≠ 0 ∧ env.errno r.2 = EPIPE) →
      (loop_body env s).1.command_pipe_open = true ∧
      loop_break env (loop_body env s).1 = false ∧
      (∀ fuel, event_loop env (fuel + 1) s =
        ((event_loop env fuel (loop_body env s).1).1,
          (loop_body env s).2 ++ (event_loop env fuel (loop_body env s).1).2)) ∧
      (∃ x, Event.read_commands x ∈ (loop_body env (loop_body env s).1).2)) := by
  intro w3 r
  have hflag := loop_body_open_flag env s h
  refine ⟨?_, hflag, ?_⟩
  · have : (loop_body env s).1.command_pipe_open = (read_step env s.command_pipe_open w3).1 := rfl
    rw [← this]
    exact hflag
  · intro hn
    have hopen : (loop_body env s).1.command_pipe_open = true := by
      cases hb : (loop_body env s).1.command_pipe_open with
      | true => rfl
      | false => exact absurd (hflag.1 hb) hn
    have hbr : loop_break env (loop_body env s).1 = false := by
      simp [loop_break, hopen]
    refine ⟨hopen, hbr, ?_, ?_⟩
    · intro fuel
      simp [event_loop, hbr]
    · refine ⟨(env.read_commands (env.receive_replies (env.wait_for_activity
        (env.fflush FILE.stdout (loop_body env s).1.world)))).1, ?_⟩
      rw [(loop_body_open_events env _ hopen).1]
      simp

/-- C8: the help flag prints usage to standard output and exits with status 0
before any privileged action.  In every run of `main` in which `getopt_long`
returns `'h'`, the process exits with status 0 and the trace is: the earlier
`getopt_long` calls, all of which returned `'b'`; the call that returned `'h'`;
the seven lines of the usage text written to `stdout`; `exit(0)`.  Nothing else
is called: not `init_net_state_privileged`, no step of
`drop_elevated_permissions`, and no later step of `main`.  The run is the same
under every larger fuel bound. -/
theorem help_prints_usage_and_exits (env : Env W) (HAVE_LIBCAP : Bool) (fuel : Nat) (w : W)
    (so : List Nat) (oa : Option String)
    (h : Event.getopt_long so ('h'.toNat : Int) oa ∈ (main env HAVE_LIBCAP fuel w).2) :
    (main env HAVE_LIBCAP fuel w).1 = Outcome.exited 0 ∧
    (∃ pre : List Event,
      (∀ e ∈ pre, ∃ oa1, e = Event.getopt_long so ('b'.toNat : Int) oa1) ∧
      (main env HAVE_LIBCAP fuel w).2 =
        pre ++ [Event.getopt_long so ('h'.toNat : Int) oa] ++
          usage_text.map (fun s => Event.fputs s FILE.stdout) ++ [Event.exit 0]) ∧
    (∀ bind, Event.init_net_state_privileged bind ∉ (main env HAVE_LIBCAP fuel w).2) ∧
    (∀ r, Event.drop_elevated_permissions_return r ∉ (main env HAVE_LIBCAP fuel w).2) ∧
    (∀ e ∈ (main env HAVE_LIBCAP fuel w).2,
      e.is_privileged_init = false ∧ e.is_drop_step = false ∧ e.is_drop_return = false ∧
        e.is_unprivileged_call = false ∧ e.is_loop_call = false) ∧
    (∀ fuel2, fuel ≤ fuel2 →
      main env HAVE_LIBCAP fuel2 w = main env HAVE_LIBCAP fuel w) := by
  have h104 : (('h'.toNat : Nat) : Int) = 104 := rfl
  have h98 : (('b'.toNat : Nat) : Int) = 98 := rfl
  rw [h104] at h ⊢
  rw [h98]
  obtain ⟨pre, hpre, hm⟩ := main_usage_run env HAVE_LIBCAP fuel w so 104 oa h
    (by decide) (by decide)
  simp only [if_true] at hm
  have hq : ∀ e ∈ (main env HAVE_LIBCAP fuel w).2,
      e.is_privileged_init = false ∧ e.is_drop_step = false ∧ e.is_drop_return = false ∧
        e.is_unprivileged_call = false ∧ e.is_loop_call = false := by
    intro e he
    rw [hm] at he
    exact quiet_of_usage_run (usage_run_events hpre e he)
  refine ⟨by rw [hm], ⟨pre, hpre, by rw [hm]; simp [usage_events]⟩, ?_, ?_, hq, ?_⟩
  · intro bind hmem
    have := (hq _ hmem).1
    simp [Event.is_privileged_init] at this
  · intro r hmem
    have := (hq _ hmem).2.2.1
    simp [Event.is_drop_return] at this
  · intro fuel2 hf
    exact main_mono env HAVE_LIBCAP fuel w (by rw [hm]; intro hc; cases hc) fuel2 hf

/-- C9: an unrecognised option prints usage to standard error and exits with
status 0, before any privileged action.  In every run of `main` in which
`getopt_long` returns a value other than `'b'`, `'h'` and -1, the process exits
with status 0 (the status of `--help` and of a clean shutdown) and the trace is:
the earlier `getopt_long` calls, all of which returned `'b'`; that call; the
usage text written to `stderr`; `exit(0)`.  `init_net_state_privileged` is not
called.  For either stream `usage` ends with `exit(0)`, and in any run of `main`
an `exit` call is the last event: `usage` does not return to its caller. -/
theorem unrecognised_option_exits_zero (env : Env W) (HAVE_LIBCAP : Bool) (fuel : Nat)
    (w : W) (so : List Nat) (ret : Int) (oa : Option String)
    (h : Event.getopt_long so ret oa ∈ (main env HAVE_LIBCAP fuel w).2)
    (hb : ret ≠ ('b'.toNat : Int)) (hh : ret ≠ ('h'.toNat : Int)) (hm1 : ret ≠ -1) :
    (main env HAVE_LIBCAP fuel w).1 = Outcome.exited 0 ∧
    (∃ pre : List Event,
      (∀ e ∈ pre, ∃ oa1, e = Event.getopt_long so ('b'.toNat : Int) oa1) ∧
      (main env HAVE_LIBCAP fuel w).2 =
        pre ++ [Event.getopt_long so ret oa] ++
          usage_text.map (fun s => Event.fputs s FILE.stderr) ++ [Event.exit 0]) ∧
    (∀ bind, Event.init_net_state_privileged bind ∉ (main env HAVE_LIBCAP fuel w).2) ∧
    (∀ e ∈ (main env HAVE_LIBCAP fuel w).2,
      e.is_privileged_init = false ∧ e.is_drop_step = false ∧ e.is_drop_return = false ∧
        e.is_unprivileged_call = false ∧ e.is_loop_call = false) ∧
    (∀ (out : FILE) (w0 : W),
      (usage env out w0).ret = 0 ∧
      (usage env out w0).events
        = usage_text.map (fun s => Event.fputs s out) ++ [Event.exit 0]) ∧
    (∀ (fuel1 : Nat) (w0 : W) (a b : List Event) (st : Int),
      (main env HAVE_LIBCAP fuel1 w0).2 = a ++ Event.exit st :: b →
      b = [] ∧ (main env HAVE_LIBCAP fuel1 w0).1 = Outcome.exited st) ∧
    (∀ fuel2, fuel ≤ fuel2 →
      main env HAVE_LIBCAP fuel2 w = main env HAVE_LIBCAP fuel w) := by
  have h104 : (('h'.toNat : Nat) : Int) = 104 := rfl
  have h98 : (('b'.toNat : Nat) : Int) = 98 := rfl
  rw [h104] at hh
  rw [h98] at hb ⊢
  obtain ⟨pre, hpre, hm⟩ := main_usage_run env HAVE_LIBCAP fuel w so ret oa h hb hm1
  simp only [hh, if_false] at hm
  have hq : ∀ e ∈ (main env HAVE_LIBCAP fuel w).2,
      e.is_privileged_init = false ∧ e.is_drop_step = false ∧ e.is_drop_return = false ∧
        e.is_unprivileged_call = false ∧ e.is_loop_call = false := by
    intro e he
    rw [hm] at he
    exact quiet_of_usage_run (usage_run_events hpre e he)
  refine ⟨by rw [hm], ⟨pre, hpre, by rw [hm]; simp [usage_events]⟩, ?_, hq, ?_, ?_, ?_⟩
  · intro bind hmem
    have := (hq _ hmem).1
    simp [Event.is_privileged_init] at this
  · intro out w0
    exact ⟨rfl, rfl⟩
  · intro fuel1 w0 a b st hsplit
    exact exit_is_last env HAVE_LIBCAP fuel1 w0 a b st hsplit
  · intro fuel2 hf
    exact main_mono env HAVE_LIBCAP fuel w (by rw [hm]; intro hc; cases hc) fuel2 hf

/-! ## The claims on the simulated host -/

/-- Witness for C1: on a host that refuses `setgid`, `main -b eth0` ends with
`EXIT_FAILURE` and never calls `init_net_state`. -/
theorem drop_failure_is_fatal_witness :
    (main host_env true 4 (host_start [(98, some "eth0")] [] false)).1
      = Outcome.exited EXIT_FAILURE ∧
    Event.init_net_state ∉ (main host_env true 4 (host_start [(98, some "eth0")] [] false)).2 :=
  have t := drop_failure_is_fatal host_env true 4 (host_start [(98, some "eth0")] [] false)
    (-1) (by decide) (by decide)
  ⟨t.1, t.2.2.1⟩

/-- Witness for C2: on a set-uid-root host that permits the calls, the drop
returns 0 and leaves effective and real IDs equal. -/
theorem drop_elevated_permissions_spec_witness :
    (drop_elevated_permissions host_env true (host_start [] [] true)).ret = 0 ∧
    ids_equal host_env
      (host_env.setuid 1000 (host_env.setgid 1000 (host_start [] [] true)).2).2 :=
  have t := drop_elevated_permissions_spec host_env true (host_start [] [] true)
  have r : (drop_elevated_permissions host_env true (host_start [] [] true)).ret = 0 :=
    t.1.1.2 ⟨rfl, rfl, ⟨rfl, rfl⟩, fun _ => ⟨1, rfl, rfl, rfl⟩⟩
  ⟨r, t.1.2.2.1 r⟩

/-- Witness for C3: in a run of `main -b eth0` that reaches the event loop,
`init_net_state_privileged` is called exactly once. -/
theorem privileged_init_precedes_drop_witness :
    (main host_env true 5 (host_start [(98, some "eth0")] [(0, 0)] true)).2.countP
      Event.is_privileged_init = 1 :=
  (privileged_init_precedes_drop host_env true 5
    (host_start [(98, some "eth0")] [(0, 0)] true) hb none (by decide)).2.1

/-- Witness for C4: `main -b eth0` with one command on the pipe leaves the loop
after its third iteration and returns 0; the second iteration ends with the pipe
closed but a probe outstanding. -/
theorem event_loop_exit_condition_witness :
    (main host_env true 5 (host_start [(98, some "eth0")] [(0, 0)] true)).1
      = Outcome.exited 0 ∧
    ¬ drained host_env (iterate_body host_env 2 (loop_entry host_env
        (drop_elevated_permissions host_env true
          (host_getopt_long (host_getopt_long
            (host_start [(98, some "eth0")] [(0, 0)] true)).2).2).world)) :=
  have t := (event_loop_exit_condition host_env true 5
    (host_start [(98, some "eth0")] [(0, 0)] true)).2.2.2 (some "eth0")
    (host_getopt_long (host_getopt_long (host_start [(98, some "eth0")] [(0, 0)] true)).2).2
    rfl rfl
  ⟨t.1.2 ⟨2, by decide, ⟨rfl, rfl⟩⟩, fun hd => absurd hd.2 (by decide)⟩

/-- Witness for C6: on a host whose command pipe is already closed, the flag is
false after the first iteration and still false two iterations later. -/
theorem draining_is_permanent_witness :
    (iterate_body host_env (1 + 2) ⟨true, host_start [] [] true⟩).command_pipe_open = false :=
  (draining_is_permanent host_env ⟨true, host_start [] [] true⟩ 1 (by decide) 2).1

/-- Witness for C7: a read that fails with `errno = 4` (not `EPIPE`) leaves the
pipe open. -/
theorem running_to_draining_witness :
    (loop_body host_env ⟨true, host_start [] [(-1, 4)] true⟩).1.command_pipe_open = true :=
  ((running_to_draining host_env ⟨true, host_start [] [(-1, 4)] true⟩ rfl).2.2
    (by decide)).1

/-- Witness for C8: `main -b eth0 -h` exits with status 0. -/
theorem help_prints_usage_and_exits_witness :
    (main host_env true 3 (host_start [(98, some "eth0"), (104, none)] [] true)).1
      = Outcome.exited 0 :=
  (help_prints_usage_and_exits host_env true 3
    (host_start [(98, some "eth0"), (104, none)] [] true) hb none (by decide)).1

/-- Witness for C9: `main -x`, for which `getopt_long` returns `'?'`, exits with
status 0 without calling `init_net_state_privileged`. -/
theorem unrecognised_option_exits_zero_witness :
    (main host_env true 3 (host_start [(63, none)] [] true)).1 = Outcome.exited 0 ∧
    ∀ bind, Event.init_net_state_privileged bind ∉
      (main host_env true 3 (host_start [(63, none)] [] true)).2 :=
  have t := unrecognised_option_exits_zero host_env true 3 (host_start [(63, none)] [] true)
    hb 63 none (by decide) (by decide) (by decide) (by decide)
  ⟨t.1, t.2.2.1⟩

end MtrPacket
